import Mathlib

/-!
Verification development for the barrier-splitting compiler pass
(`src/src/xform/barrier_analysis.rs` and `src/src/xform/rewrite_pipeline_buffer.rs`).

The pass splits a hardware module containing `Barrier` block intrinsics into a
chain of pipeline-stage modules connected by FIFOs.  We shallowly embed the
pass: the IR is an arena of nodes addressed by integer keys, the dependency
graph visitor (`GraphVisitor::visit_expr`), barrier-level analysis
(`DependencyGraph::gather_barrier_level`), submodule construction
(`DependencyGraph::gather_submodules`) and the rewrite (`CutModules::cut_modules`)
are translated into executable Lean functions.  Rust `HashMap`s are modelled as
association lists with replace-on-insert semantics (their iteration order is
unspecified in Rust; we fix insertion order, and no theorem below depends on an
order the Rust code leaves unspecified).  Fallible operations (`unwrap`,
`expect`) are modelled with `Option` / `Except`: a `none` / `.error` result is a
Rust panic.  Unbounded recursion (the Rust DFS routines) is modelled with an
explicit fuel parameter; `none` at fuel exhaustion corresponds to a
non-terminating or deeper-than-fuel run, and theorems about the DFS take the
successful-run equation as a hypothesis.  `println!` logging is not modelled
except for the "opcode is not supported" diagnostic of the rewriter, which two
claims are about.
-/

namespace BarrierPass

/-- Binary opcode sub-codes (`ir::expr::subcode::Binary`). -/
inductive BinOp where
  | add | sub | mul | bitAnd | bitOr | bitXor | shl | shr | mod
deriving DecidableEq, Repr

/-- Cast opcode sub-codes (`ir::expr::subcode::Cast`). -/
inductive CastOp where
  | bitCast | zext | sext
deriving DecidableEq, Repr

/-- Expression opcodes used by the pass (`ir::Opcode`).  `barrier` is
`BlockIntrinsic{Barrier}`; `intrinsicOther` stands for any other block
intrinsic; `otherOp` stands for any opcode outside the pass's tables. -/
inductive Opcode where
  | load | fifoPop | fifoPush | store | bind | asyncCall
  | barrier | intrinsicOther
  | slice
  | binary (b : BinOp)
  | cast (c : CastOp)
  | otherOp
deriving DecidableEq, Repr

/-- Data types carried by IR values (`ir::DataType`).  `DataType::int_ty(32)`
is `DataType.int 32`. -/
inductive DataType where
  | int (w : Nat)
  | uint (w : Nat)
  | bits (w : Nat)
deriving DecidableEq, Repr

/-- An arena node (`BaseNode` target).  An `Expr` carries its opcode, the keys
of its operand values, and its data type; `intImm` is an integer immediate;
`fifo` is a FIFO/port node with its display name; `otherNode` is any other
node kind. -/
inductive Node where
  | expr (op : Opcode) (operands : List Nat) (dt : DataType)
  | intImm (v : Int) (dt : DataType)
  | fifo (name : String)
  | otherNode
deriving DecidableEq, Repr

/-- A module of the system: its arena key, display name, and body
(expression keys in program order). -/
structure ModuleDef where
  key : Nat
  name : String
  body : List Nat
deriving DecidableEq, Repr

/-- The system: the modules (of kind `Module`, in iteration order) and the
node arena. -/
structure Sys where
  modules : List ModuleDef
  arena : List (Nat × Node)
deriving DecidableEq, Repr

/-- Association-list lookup (first binding wins; models `HashMap::get`). -/
def lookupA {α : Type} (l : List (Nat × α)) (k : Nat) : Option α :=
  match l.find? (fun e => e.1 = k) with
  | some e => some e.2
  | none => none

/-- Association-list insert with replace semantics (models `HashMap::insert`):
the old binding of `k` is removed, the new one appended. -/
def insertA {α : Type} (l : List (Nat × α)) (k : Nat) (v : α) : List (Nat × α) :=
  (l.filter (fun e => ¬ e.1 = k)) ++ [(k, v)]

/-- Key-set insert (models `HashMap::insert` when the stored value is the key's
own node, so only key membership matters). -/
def insertNat (l : List Nat) (k : Nat) : List Nat :=
  if k ∈ l then l else l ++ [k]

/-- Append an element only if absent (the Rust `if !v.contains(x) { v.push(x) }`
idiom). -/
def appendNew (l : List Nat) (x : Nat) : List Nat :=
  if x ∈ l then l else l ++ [x]

/-- Insertion sort step for `usize`-keyed pairs. -/
def insertSorted (x : Nat × Nat) : List (Nat × Nat) → List (Nat × Nat)
  | [] => [x]
  | y :: ys => if x.1 ≤ y.1 then x :: y :: ys else y :: insertSorted x ys

/-- Sort key/value pairs by key ascending (models `sort_by_key(|(k, _)| *k)`). -/
def sortPairs (l : List (Nat × Nat)) : List (Nat × Nat) :=
  l.foldr insertSorted []

/-- Insertion sort step for plain keys. -/
def insertSortedNat (x : Nat) : List Nat → List Nat
  | [] => [x]
  | y :: ys => if x ≤ y then x :: y :: ys else y :: insertSortedNat x ys

/-- Sort keys ascending. -/
def sortNat (l : List Nat) : List Nat :=
  l.foldr insertSortedNat []

/-! ### Phase P2a: dependency-graph construction (`GraphVisitor::visit_expr`,
`barrier_analysis.rs` lines 561-633). -/

/-- The state built by `GraphVisitor` (the fields of `DependencyGraph` that
`visit_expr` writes).  `adjacency` is the edge list `(mom, child)`;
`expr_hashmap`, `caller_expr` and `barrier_expr` are `HashMap<key, BaseNode>`
where the stored node is the expression at the key, so only the key set is
kept; `barrier_list`, `module_ports` and `module_outputs` are `Vec<usize>`. -/
structure GraphState where
  adjacency : List (Nat × Nat)
  expr_hashmap : List Nat
  caller_expr : List Nat
  barrier_expr : List Nat
  barrier_list : List Nat
  module_ports : List Nat
  module_outputs : List Nat
deriving DecidableEq, Repr

/-- The empty `DependencyGraph`. -/
def GraphState.init : GraphState := ⟨[], [], [], [], [], [], []⟩

/-- One call of `GraphVisitor::visit_expr` on the expression at key `k`.
`none` models a Rust panic (an `unwrap` on a missing operand).  Non-`Expr`
nodes never reach `visit_expr` (the visitor walks expression children only);
we return the state unchanged for them. -/
def visitExprStep (arena : List (Nat × Node)) (st : GraphState) (k : Nat) :
    Option GraphState :=
  match lookupA arena k with
  | some (Node.expr op ops _) =>
    match op with
    | Opcode.barrier =>
      -- barrier_list.push(op0); barrier_expr.insert(key, expr)
      match ops.get? 0 with
      | some b =>
        some { st with barrier_list := st.barrier_list ++ [b],
                       barrier_expr := insertNat st.barrier_expr k }
      | none => none
    | Opcode.bind =>
      some { st with caller_expr := insertNat st.caller_expr k }
    | Opcode.asyncCall =>
      some { st with caller_expr := insertNat st.caller_expr k }
    | _ =>
      -- !(is_barrier || is_output): record in expr_hashmap, ports, outputs, edges
      let st1 := if op = Opcode.fifoPush
        then { st with caller_expr := insertNat st.caller_expr k } else st
      let st2 := { st1 with expr_hashmap := insertNat st1.expr_hashmap k }
      let st3 := if op = Opcode.load ∨ op = Opcode.fifoPop
        then { st2 with module_ports := st2.module_ports ++ [k] } else st2
      if op = Opcode.fifoPush ∨ op = Opcode.store then
        match ops.get? 1 with
        | some d => some { st3 with module_outputs := st3.module_outputs ++ [d] }
        | none => none
      else if op = Opcode.slice then
        match ops.get? 0 with
        | some b => some { st3 with adjacency := st3.adjacency ++ [(b, k)] }
        | none => none
      else
        some { st3 with adjacency := st3.adjacency ++ ops.map (fun o => (o, k)) }
  | _ => some st

/-- `GraphVisitor::visit_module`: fold `visit_expr` over the body in program
order. -/
def runGraphVisitor (arena : List (Nat × Node)) (body : List Nat) :
    Option GraphState :=
  body.foldlM (fun st k => visitExprStep arena st k) GraphState.init

/-! ### Phase P2b: barrier-level analysis
(`DependencyGraph::gather_barrier_level`, lines 404-541).

The inner `dfs` collects every root-to-leaf path of the adjacency list that
starts at the barrier value and has length `> 1`; the Rust recursion has no
termination guard, so the embedding takes a fuel parameter (`none` = the run
needs more fuel than supplied, i.e. does not terminate within it). -/

/-- The path-collecting `dfs` (lines 408-438).  `path` is the stack of nodes
above `current`; a collected path includes `current`. -/
def dfsPaths (adj : List (Nat × Nat)) :
    Nat → Nat → List Nat → Option (List (List Nat))
  | 0, _, _ => none
  | fuel + 1, current, path =>
    let path2 := path ++ [current]
    let children := (adj.filter (fun e => e.1 = current)).map (fun e => e.2)
    match children with
    | [] => some (if 1 < path2.length then [path2] else [])
    | cs => do
      let rs ← cs.mapM (fun c => dfsPaths adj fuel c path2)
      pure rs.flatten

/-- The operand keys of the expression at `k` that the path post-processing
considers (lines 468-507): nothing if `k` is not in `expr_hashmap` or its node
is not an `Expr`; nothing for `FIFOPush`/`Bind`/`AsyncCall` (`not_save_nodes`);
only operand 0 for `Slice` (its absence is the Rust `unwrap` panic, hence
`none`); all operands otherwise. -/
def consideredOpsM (arena : List (Nat × Node)) (g : GraphState) (k : Nat) :
    Option (List Nat) :=
  if k ∈ g.expr_hashmap then
    match lookupA arena k with
    | some (Node.expr op ops _) =>
      if op = Opcode.fifoPush ∨ op = Opcode.bind ∨ op = Opcode.asyncCall then
        some []
      else if op = Opcode.slice then
        match ops.get? 0 with
        | some b => some [b]
        | none => none
      else some ops
    | _ => some []   -- "The provided BaseNode is not an expression."
  else some []

/-- Append to the stage's port list every considered operand that does not lie
on the path and is not already present (lines 479-501). -/
def processOps (path : List Nat) (acc : List Nat) (ops : List Nat) : List Nat :=
  ops.foldl (fun a z => if z ∈ path then a else appendNew a z) acc

/-- Process the keys of a collected path past the root (the loop over
`path.iter().enumerate()` with `i > 0`). -/
def processKeys (arena : List (Nat × Node)) (g : GraphState) (path : List Nat) :
    List Nat → List Nat → Option (List Nat)
  | acc, [] => some acc
  | acc, k :: ks => do
    let l ← consideredOpsM arena g k
    processKeys arena g path (processOps path acc l) ks

/-- Process one collected root-to-leaf path: the root (index 0) is skipped. -/
def processPath (arena : List (Nat × Node)) (g : GraphState)
    (acc : List Nat) (path : List Nat) : Option (List Nat) :=
  match path with
  | [] => some acc
  | _ :: rest => processKeys arena g path acc rest

/-- Handle one barrier value `b` from `barrier_list` (the body of the loop at
lines 442-530): if `b` is already contained in some stage's port vector the
map is left unchanged; otherwise a new stage keyed `b` is opened with initial
ports `[b]` and extended by walking every collected path. -/
def processBarrier (arena : List (Nat × Node)) (g : GraphState) (fuel : Nat)
    (map : List (Nat × List Nat)) (b : Nat) : Option (List (Nat × List Nat)) :=
  if map.any (fun e => b ∈ e.2) then some map
  else do
    let paths ← dfsPaths g.adjacency fuel b []
    let ports ← paths.foldlM (fun acc p => processPath arena g acc p) [b]
    pure (map ++ [(b, ports)])

/-- `DependencyGraph::gather_barrier_level`: fold over `barrier_list` in
insertion order, producing `submodule_barrier_map`. -/
def gatherBarrierLevel (arena : List (Nat × Node)) (g : GraphState)
    (fuel : Nat) : Option (List (Nat × List Nat)) :=
  g.barrier_list.foldlM (fun map b => processBarrier arena g fuel map b) []

/-! ### Phase P2c: submodule construction
(`DependencyGraph::gather_submodules`, lines 206-401).

The Rust `dfs` threads a `&mut i32` stage level through the recursion: the
level is reset to `new_level` before each child call and keeps whatever value
the subtree left behind afterwards — the embedding reproduces this by storing
the level in the threaded state and overwriting it before each child.  The
`path` / `all_paths` accumulators are used only for `println!` logging and are
omitted.  The debug prints at lines 280-283 `unwrap` the current stage and the
expression at `current`; those lookups are kept as `Option` binds.  The level
is an `i32` in Rust but provably stays non-negative (it starts at 0 and every
assigned value is `0`, `level + 1`, or `level - 1` guarded by `level == 0`),
so it is modelled as `Nat`. -/

/-- A pipeline stage (`SubModule`): `buffered_barriers` is the stage's
barriers-out (the values crossing into the next stage), `buffered_ports` its
ports-in, `buffered_expr` the keys of the body expressions to clone (the Rust
map stores `key → the node at key`, so the key set suffices). -/
structure SubModule where
  buffered_barriers : List Nat
  buffered_ports : List Nat
  buffered_expr : List Nat
deriving DecidableEq, Repr

/-- State threaded through the `gather_submodules` DFS: visited markers,
current level, `submodule_map` and `submodule_order`. -/
structure GSState where
  used : List Nat
  level : Nat
  smap : List (Nat × SubModule)
  sorder : List (Nat × Nat)
deriving DecidableEq, Repr

/-- The recursive `dfs` of `gather_submodules` (lines 210-346). -/
def gsDfs (adj : List (Nat × Nat)) (bmap : List (Nat × List Nat))
    (hashKeys : List Nat) (outputs : List Nat) :
    Nat → Nat → GSState → Option GSState
  | 0, _, _ => none
  | fuel + 1, current, st0 => do
    -- unwraps of the debug prints and of line 240 / 245
    let stKey ← lookupA st0.sorder st0.level
    let curStage ← lookupA st0.smap stKey
    let _ ← if current ∈ hashKeys then some () else none
    -- key_containing_v (lines 231-232): first stage whose port vector holds `current`
    let kcv := (bmap.find? (fun e => current ∈ e.2)).map (fun e => e.1)
    -- stage bookkeeping and new_level (lines 234-278)
    let (newLevel, st1) ←
      match kcv with
      | none => some (st0.level, st0)
      | some sk =>
        if curStage.buffered_barriers.isEmpty then do
          let skPorts ← lookupA bmap sk
          let nl := st0.level + 1
          let sorder1 := insertA st0.sorder nl sk
          let smap1 := insertA st0.smap stKey
            { curStage with buffered_barriers := skPorts }
          let smap2 := insertA smap1 sk ⟨[], skPorts, []⟩
          some (nl, { st0 with smap := smap2, sorder := sorder1 })
        else
          if current ∈ curStage.buffered_ports then
            some (if st0.level = 0 then 0 else st0.level - 1, st0)
          else if current ∈ curStage.buffered_barriers then
            some (st0.level + 1, st0)
          else
            some (st0.level, st0)
    -- body recording and recursion (lines 287-331); the level is set to
    -- new_level immediately before every child call
    let st2 ←
      if current ∈ st1.used then some st1
      else do
        let stKey1 ← lookupA st1.sorder st1.level
        let stage1 ← lookupA st1.smap stKey1
        let smap3 := insertA st1.smap stKey1
          { stage1 with buffered_expr := insertNat stage1.buffered_expr current }
        let children := (adj.filter (fun e => e.1 = current)).map (fun e => e.2)
        children.foldlM
          (fun acc c =>
            gsDfs adj bmap hashKeys outputs fuel c { acc with level := newLevel })
          { st1 with smap := smap3 }
    -- terminal-stage labelling by module outputs (lines 333-340), at the
    -- possibly mutated level
    let st3 ←
      if current ∈ outputs then do
        let stKey2 ← lookupA st2.sorder st2.level
        let stage2 ← lookupA st2.smap stKey2
        if stage2.buffered_barriers.isEmpty then
          some { st2 with
                 smap := insertA st2.smap stKey2
                          ({ stage2 with buffered_barriers := outputs }) }
        else some st2
      else some st2
    some { st3 with used := st3.used ++ [current] }

/-- `DependencyGraph::gather_submodules` (lines 348-393): one DFS per module
port seed, the level reset to 0 for each seed, the first stage created lazily
before the first seed. -/
def gatherSubmodules (adj : List (Nat × Nat)) (bmap : List (Nat × List Nat))
    (hashKeys : List Nat) (outputs : List Nat) (ports : List Nat)
    (fuel : Nat) : Option (List (Nat × SubModule) × List (Nat × Nat)) := do
  let st ← ports.foldlM
    (fun (st : GSState) seed =>
      let st1 := if st.smap.isEmpty then
          { st with smap := [(seed, ⟨[], ports, []⟩)], sorder := [(0, seed)] }
        else st
      gsDfs adj bmap hashKeys outputs fuel seed { st1 with level := 0 })
    ⟨[], 0, [], []⟩
  pure (st.smap, st.sorder)

/-! ### Phase P3: the rewrite (`CutModules::cut_modules`, lines 668-1017).

Builder calls are external to the analyzed sources; following §6 of the spec
("Builder API consumed") each `create_*` call is modelled as emitting one
instruction into the current module's body and returning a fresh handle.
Handles are symbolic: `Handle.orig k` is a pre-existing arena node,
`Handle.pop o p dt` the result of `create_fifo_pop` for port `p` of the stage
at order `o`, `Handle.cloneH o k dt` the clone of original expression `k` made
in stage `o`, `Handle.validH` / `Handle.andH` the results of
`create_fifo_valid` / `create_bitwise_and`.  Modelled from the spec: the data
type returned by `get_dtype` on a created expression is the type the builder
stamped on it (`DataType::int_ty(32)` for bitcasts, the popped port's type for
pops; for the arithmetic constructors we take the first operand's type — no
claim below depends on that choice). -/

/-- Symbolic value handles (`BaseNode` results of builder calls). -/
inductive Handle where
  | orig (key : Nat)
  | pop (stage orig : Nat) (dt : DataType)
  | cloneH (stage orig : Nat) (dt : DataType)
  | validH (stage orig : Nat)
  | andH (a b : Handle)
deriving DecidableEq, Repr

/-- `PortInfo::new(name, DataType)`. -/
structure PortInfo where
  name : String
  dt : DataType
deriving DecidableEq, Repr

/-- Instructions emitted into a new stage module, in program order. -/
inductive Emit where
  | fifoValid (stage port : Nat)
  | andE (a b : Handle)
  | waitUntil (cond : Handle)
  | fifoPop (stage port : Nat) (dt : DataType)
  | binaryE (b : BinOp) (x y : Handle)
  | bitcastE (x : Handle) (dt : DataType)
  | sliceE (x : Handle) (lo hi : Handle)
deriving DecidableEq, Repr

/-- A module created by `create_module` during the rewrite. -/
structure NewModule where
  name : String
  ports : List PortInfo
  body : List Emit
  order : Nat
deriving DecidableEq, Repr

/-- The caller stitching emitted into the predecessor module for one stage:
`intoModule` is where it is emitted (the original module for order 1, the
previous stage module otherwise), `target` the stage module whose init-bind is
taken, `bindArgs` the `bind_arg(init, name, value)` calls in order, followed by
exactly one `create_async_call(init)`. -/
structure Stitch where
  intoModule : String
  target : String
  bindArgs : List (String × Handle)
deriving DecidableEq, Repr

/-- Ordered trace events of the rewrite used to state sequencing properties:
`eraseBarrierE k` is the `erase_from_parent` of barrier expression `k`
(lines 683-687); `cloneE o k` is the re-emission of body expression `k` into
the stage at order `o`. -/
inductive Event where
  | eraseBarrierE (k : Nat)
  | cloneE (order k : Nat)
deriving DecidableEq, Repr

/-- Rust panic sites of `cut_modules`, one constructor per `unwrap`/`expect`:
`nwfaMissing` lines 701/768/784, `dtypeMissing` line 703, `submoduleMissing`
lines 690-693, `callerMissing` line 759, `operandMissing` the
`get_operand_value(i).unwrap()` calls, `remapMissing` the
`node_remapping_map.get(..).unwrap()` calls in body cloning (lines 873-918),
`barrierOutUnmapped` line 950, `rebindUnmapped` line 979, `stageZeroNoExpr`
line 993. -/
inductive CutPanic where
  | nwfaMissing (k : Nat)
  | dtypeMissing (k : Nat)
  | submoduleMissing (k : Nat)
  | callerMissing (o : Nat)
  | operandMissing (k i : Nat)
  | remapMissing (k : Nat)
  | barrierOutUnmapped (k : Nat)
  | rebindUnmapped (k : Nat)
  | stageZeroNoExpr (k : Nat)
deriving DecidableEq, Repr

/-- Per-transformed-module state captured by phases P1-P2
(`SubModuleContainer`). -/
structure Container where
  module_name : String
  sub_module_map : List (Nat × SubModule)
  sub_module_order : List (Nat × Nat)
  caller_expr : List Nat
  barrier_expr : List Nat
deriving DecidableEq, Repr

/-- The data type of the value a handle denotes (`BaseNode::get_dtype`).
Modelled from the spec (§6): for an original node it is the type stored on the
node; created expressions carry the type chosen at creation. -/
def handleDtype (arena : List (Nat × Node)) : Handle → Option DataType
  | Handle.orig k =>
    match lookupA arena k with
    | some (Node.expr _ _ dt) => some dt
    | some (Node.intImm _ dt) => some dt
    | _ => none
  | Handle.pop _ _ dt => some dt
  | Handle.cloneH _ _ dt => some dt
  | Handle.validH _ _ => some (DataType.uint 1)
  | Handle.andH a _ => handleDtype arena a

/-- Display form of an arena node (`BaseNode::to_string`), used to recover a
port name from a `FIFOPush`'s operand 0.  Modelled from the spec (§4.5 step 7:
"port name recovered from the push's operand-0 display form"): a FIFO node
displays as its name. -/
def displayNode (arena : List (Nat × Node)) (k : Nat) : String :=
  match lookupA arena k with
  | some (Node.fifo n) => n
  | _ => "node_" ++ Nat.repr k

/-- `HashMap::get(..).unwrap()` with the panic it raises on `None`. -/
def lookupE {α : Type} (l : List (Nat × α)) (k : Nat) (p : CutPanic) :
    Except CutPanic α :=
  match lookupA l k with
  | some v => Except.ok v
  | none => Except.error p

/-- `expr.get_operand_value(i).unwrap()` for the expression at key `k`. -/
def opAtE (ops : List Nat) (k i : Nat) : Except CutPanic Nat :=
  match ops.get? i with
  | some v => Except.ok v
  | none => Except.error (CutPanic.operandMissing k i)

/-- Port list typing (lines 700-706): each port key is looked up in
`nodes_waiting_for_asyncall` and its handle's data type taken. -/
def portTypesOf (arena : List (Nat × Node)) (nwfa : List (Nat × Handle))
    (ports : List Nat) : Except CutPanic (List (Nat × DataType)) :=
  ports.mapM (fun p => do
    let h ← lookupE nwfa p (CutPanic.nwfaMissing p)
    match handleDtype arena h with
    | some dt => Except.ok (p, dt)
    | none => Except.error (CutPanic.dtypeMissing p))

/-- The `bind_arg` arguments of the caller stitching (lines 763-786): one per
port, named `buffered_<origKey>`, carrying the handle stored in
`nodes_waiting_for_asyncall`. -/
def bindArgsOf (nwfa : List (Nat × Handle)) (ports : List Nat) :
    Except CutPanic (List (String × Handle)) :=
  ports.mapM (fun p => do
    let h ← lookupE nwfa p (CutPanic.nwfaMissing p)
    Except.ok ("buffered_" ++ Nat.repr p, h))

/-- The FIFO-valid prologue (lines 724-751): one `create_fifo_valid` per port,
combined pairwise by `create_bitwise_and` into a left fold; returns the
emitted instructions and the accumulated condition handle (`None` iff the
port list is empty). -/
def validChain (order : Nat) (ports : List Nat) :
    List Emit × Option Handle :=
  ports.foldl
    (fun (acc : List Emit × Option Handle) p =>
      match acc.2 with
      | none => (acc.1 ++ [Emit.fifoValid order p], some (Handle.validH order p))
      | some h =>
        (acc.1 ++ [Emit.fifoValid order p, Emit.andE h (Handle.validH order p)],
         some (Handle.andH h (Handle.validH order p))))
    ([], none)

/-- Result of the terminal-stage caller pre-scan (lines 806-846): `strMap`
maps each preserved `FIFOPush`'s data key to its port's display name;
`bindInit` is the init-bind target recovered through `find_module_with_callers`
from a preserved `Bind` (the display name of the callee module). -/
structure PreScan where
  strMap : List (Nat × String)
  bindInit : Option String
deriving DecidableEq, Repr

/-- The terminal-stage caller pre-scan.  `callers` is the external call index
(`find_module_with_callers`): callee module key → keys of the `Bind`
expressions targeting it.  Modelled from the spec (§4.6) as a parameter. -/
def preScanCallers (arena : List (Nat × Node)) (callers : List (Nat × List Nat))
    (callerKeys : List Nat) : Except CutPanic PreScan :=
  callerKeys.foldlM
    (fun (acc : PreScan) k =>
      match lookupA arena k with
      | some (Node.expr Opcode.fifoPush ops _) => do
        let p0 ← opAtE ops k 0
        let p1 ← opAtE ops k 1
        Except.ok { acc with strMap := insertA acc.strMap p1 (displayNode arena p0) }
      | some (Node.expr Opcode.bind _ _) =>
        -- for each (callee, caller-set): if this Bind is in the set, take the
        -- callee's init-bind (the last match wins, as in the Rust loop)
        Except.ok { acc with
          bindInit := callers.foldl
            (fun cur e => if k ∈ e.2 then some (displayNode arena e.1) else cur)
            acc.bindInit }
      | _ => Except.ok acc)
    ⟨[], none⟩

/-- Outcome of attempting to re-emit one body expression (lines 852-945). -/
inductive CloneOutcome where
  | created (h : Handle) (e : Emit)
  | skippedSilent
  | skippedLogged (msg : String)
  | notExprNode
deriving DecidableEq, Repr

/-- `node_remapping_map.get(&k).unwrap()`. -/
def remapGet (remap : List (Nat × Handle)) (k : Nat) : Except CutPanic Handle :=
  lookupE remap k (CutPanic.remapMissing k)

/-- Diagnostic text of the catch-all arm (line 929). -/
def unsupportedMsg (op : Opcode) : String :=
  reprStr op ++ "   is not supported"

/-- Re-emit one body expression into the stage at `order` using the current
remap (`match opcode` at lines 868-931).  Only `Add`/`Sub`/`Mul`, `BitCast`
and `Slice` are re-created; the remaining `Binary` and `Cast` variants hit
empty match arms (no log); opcodes outside those families hit the logging
catch-all.  A `Slice` passes its start/end operands through unmapped. -/
def cloneStep (arena : List (Nat × Node)) (order : Nat)
    (remap : List (Nat × Handle)) (k : Nat) : Except CutPanic CloneOutcome :=
  match lookupA arena k with
  | some (Node.expr op ops _) =>
    match op with
    | Opcode.binary b =>
      match b with
      | BinOp.add => do
        let k0 ← opAtE ops k 0
        let k1 ← opAtE ops k 1
        let h0 ← remapGet remap k0
        let h1 ← remapGet remap k1
        let dt := (handleDtype arena h0).getD (DataType.int 32)
        Except.ok (CloneOutcome.created (Handle.cloneH order k dt)
          (Emit.binaryE BinOp.add h0 h1))
      | BinOp.sub => do
        let k0 ← opAtE ops k 0
        let k1 ← opAtE ops k 1
        let h0 ← remapGet remap k0
        let h1 ← remapGet remap k1
        let dt := (handleDtype arena h0).getD (DataType.int 32)
        Except.ok (CloneOutcome.created (Handle.cloneH order k dt)
          (Emit.binaryE BinOp.sub h0 h1))
      | BinOp.mul => do
        let k0 ← opAtE ops k 0
        let k1 ← opAtE ops k 1
        let h0 ← remapGet remap k0
        let h1 ← remapGet remap k1
        let dt := (handleDtype arena h0).getD (DataType.int 32)
        Except.ok (CloneOutcome.created (Handle.cloneH order k dt)
          (Emit.binaryE BinOp.mul h0 h1))
      | _ => Except.ok CloneOutcome.skippedSilent
    | Opcode.cast c =>
      match c with
      | CastOp.bitCast => do
        let k0 ← opAtE ops k 0
        let h0 ← remapGet remap k0
        Except.ok (CloneOutcome.created (Handle.cloneH order k (DataType.int 32))
          (Emit.bitcastE h0 (DataType.int 32)))
      | _ => Except.ok CloneOutcome.skippedSilent
    | Opcode.slice => do
      let k0 ← opAtE ops k 0
      let s ← opAtE ops k 1
      let e ← opAtE ops k 2
      let h0 ← remapGet remap k0
      let dt := (handleDtype arena h0).getD (DataType.int 32)
      Except.ok (CloneOutcome.created (Handle.cloneH order k dt)
        (Emit.sliceE h0 (Handle.orig s) (Handle.orig e)))
    | _ => Except.ok (CloneOutcome.skippedLogged (unsupportedMsg op))
  | _ => Except.ok CloneOutcome.notExprNode

/-- Accumulator of the body-cloning loop. -/
structure CloneAcc where
  remap : List (Nat × Handle)
  emits : List Emit
  diags : List String
  toRemove : List Nat
  events : List Event
deriving DecidableEq, Repr

/-- The body-cloning loop (lines 850-946): iterate the stage body sorted by
key ascending; a successful clone extends the remap, the emitted body and the
erasure queue. -/
def cloneFold (arena : List (Nat × Node)) (order : Nat) (keys : List Nat)
    (acc0 : CloneAcc) : Except CutPanic CloneAcc :=
  keys.foldlM
    (fun (acc : CloneAcc) k => do
      match ← cloneStep arena order acc.remap k with
      | CloneOutcome.created h e =>
        Except.ok { acc with
          remap := insertA acc.remap k h,
          emits := acc.emits ++ [e],
          toRemove := acc.toRemove ++ [k],
          events := acc.events ++ [Event.cloneE order k] }
      | CloneOutcome.skippedSilent => Except.ok acc
      | CloneOutcome.notExprNode => Except.ok acc
      | CloneOutcome.skippedLogged m =>
        Except.ok { acc with diags := acc.diags ++ [m] })
    acc0

/-- The `nodes_waiting_for_asyncall` refresh after body cloning
(lines 948-951): one entry per barriers-out key, looked up in the remap.  The
map was cleared at the caller stitching, so the fold starts empty. -/
def nwfaUpdate (remap : List (Nat × Handle)) (barriers : List Nat) :
    Except CutPanic (List (Nat × Handle)) :=
  barriers.foldlM
    (fun acc p => do
      let h ← lookupE remap p (CutPanic.barrierOutUnmapped p)
      Except.ok (insertA acc p h))
    []

/-- Stage-0 handoff (lines 990-994): map every barriers-out key to the
original expression node stored in the stage's body map. -/
def stageZeroNwfa (sm : SubModule) (nwfa : List (Nat × Handle)) :
    Except CutPanic (List (Nat × Handle)) :=
  sm.buffered_barriers.foldlM
    (fun acc p =>
      if p ∈ sm.buffered_expr then Except.ok (insertA acc p (Handle.orig p))
      else Except.error (CutPanic.stageZeroNoExpr p))
    nwfa

/-- Where the caller stitching is emitted (lines 757-775): the previously
created stage module for `order > 1`, the original module for `order = 1`. -/
def stitchTarget (c : Container) (ncs : List (Nat × String)) (order : Nat) :
    Except CutPanic String :=
  if 1 < order then lookupE ncs (order - 1) (CutPanic.callerMissing (order - 1))
  else Except.ok c.module_name

/-- The caller pre-scan runs only on the terminal stage (line 806). -/
def preOf (arena : List (Nat × Node)) (callers : List (Nat × List Nat))
    (c : Container) (isTerminal : Bool) : Except CutPanic PreScan :=
  if isTerminal then preScanCallers arena callers c.caller_expr
  else Except.ok (PreScan.mk [] none)

/-- The terminal-stage epilogue (lines 953-986): erase the preserved caller
expressions in descending key order, erase the cloned originals in reverse
queue order, and — when a `Bind` supplied an init-bind — re-emit one
`bind_arg` per preserved `FIFOPush` (value taken from the remap) and one
`async_call`.  Returns (erased keys in order, re-emitted bind args, whether
the final `async_call` was emitted). -/
def terminalFinish (c : Container) (pre : PreScan) (ca : CloneAcc)
    (isTerminal : Bool) :
    Except CutPanic (List Nat × List (String × Handle) × Bool) :=
  if isTerminal then
    let erasedT := (sortNat c.caller_expr).reverse ++ ca.toRemove.reverse
    match pre.bindInit with
    | some _ => do
      let rbs ← pre.strMap.mapM (fun e => do
        let h ← lookupE ca.remap e.1 (CutPanic.rebindUnmapped e.1)
        Except.ok (e.2, h))
      Except.ok (erasedT, rbs, true)
    | none => Except.ok (erasedT, [], false)
  else Except.ok ([], [], false)

/-- Result of processing one entry of the sorted `sub_module_order`. -/
structure StageOut where
  module : Option NewModule
  stitch : Option Stitch
  nwfa : List (Nat × Handle)
  newCallers : List (Nat × String)
  diags : List String
  events : List Event
  erased : List Nat
  rebinds : List (String × Handle)
  rebindCalled : Bool
  remap : List (Nat × Handle)
deriving DecidableEq, Repr

/-- Process one `(order, submodule_key)` entry of the sorted stage order map
(the body of the loop at lines 689-999).  For `order > 0` (lines 698-987):
derive the typed port list, create the stage module, emit the FIFO-valid /
`wait_until` prologue, emit the caller stitching into the predecessor module
(the original module for order 1, `new_submodule_caller[order-1]` otherwise)
and clear `nodes_waiting_for_asyncall`, emit one `FIFOPop` per port recording
it in the remap, run the terminal pre-scan and body cloning, refresh
`nodes_waiting_for_asyncall` from barriers-out, and on the terminal stage
erase the preserved caller expressions (descending key order) and the cloned
originals and re-emit the outgoing call.  For `order = 0` (lines 988-995):
only populate `nodes_waiting_for_asyncall` from the stage body. -/
def cutStage (arena : List (Nat × Node)) (callers : List (Nat × List Nat))
    (c : Container) (order smKey : Nat) (nwfa : List (Nat × Handle))
    (ncs : List (Nat × String)) : Except CutPanic StageOut := do
  let sm ← lookupE c.sub_module_map smKey (CutPanic.submoduleMissing smKey)
  if 0 < order then do
    let pts ← portTypesOf arena nwfa sm.buffered_ports
    let nmName := c.module_name ++ "_" ++ Nat.repr order
    let ports := pts.map (fun pd => PortInfo.mk ("buffered_" ++ Nat.repr pd.1) pd.2)
    let vc := validChain order sm.buffered_ports
    let prologue := vc.1 ++ (vc.2.map (fun h => Emit.waitUntil h)).toList
    let intoM ← stitchTarget c ncs order
    let args ← bindArgsOf nwfa sm.buffered_ports
    let popPairs := pts.map (fun pd => (pd.1, Handle.pop order pd.1 pd.2))
    let popEmits := pts.map (fun pd => Emit.fifoPop order pd.1 pd.2)
    let isTerminal := order == c.sub_module_order.length - 1
    let pre ← preOf arena callers c isTerminal
    let ca ← cloneFold arena order (sortNat sm.buffered_expr)
      ⟨popPairs, [], [], [], []⟩
    let nwfa2 ← nwfaUpdate ca.remap sm.buffered_barriers
    let tout ← terminalFinish c pre ca isTerminal
    Except.ok
      { module := some ⟨nmName, ports, prologue ++ popEmits ++ ca.emits, order⟩,
        stitch := some ⟨intoM, nmName, args⟩,
        nwfa := nwfa2,
        newCallers := insertA ncs order nmName,
        diags := ca.diags,
        events := ca.events,
        erased := tout.1,
        rebinds := tout.2.1,
        rebindCalled := tout.2.2,
        remap := ca.remap }
  else do
    let nwfa2 ← stageZeroNwfa sm nwfa
    Except.ok
      { module := none, stitch := none, nwfa := nwfa2, newCallers := ncs,
        diags := [], events := [], erased := [], rebinds := [],
        rebindCalled := false, remap := [] }

/-- Accumulated output of the rewrite for one container. -/
structure CutOut where
  newModules : List NewModule
  stitches : List Stitch
  erased : List Nat
  diags : List String
  trace : List Event
  rebinds : List (String × Handle)
  rebindCalled : Bool
deriving DecidableEq, Repr

/-- Fold `cutStage` over the sorted stage order entries, threading
`nodes_waiting_for_asyncall` and `new_submodule_caller`. -/
def cutStages (arena : List (Nat × Node)) (callers : List (Nat × List Nat))
    (c : Container) :
    List (Nat × Nat) → List (Nat × Handle) → List (Nat × String) → CutOut →
    Except CutPanic CutOut
  | [], _, _, out => Except.ok out
  | (order, smKey) :: rest, nwfa, ncs, out => do
    let so ← cutStage arena callers c order smKey nwfa ncs
    cutStages arena callers c rest so.nwfa so.newCallers
      { newModules := out.newModules ++ so.module.toList,
        stitches := out.stitches ++ so.stitch.toList,
        erased := out.erased ++ so.erased,
        diags := out.diags ++ so.diags,
        trace := out.trace ++ so.events,
        rebinds := out.rebinds ++ so.rebinds,
        rebindCalled := out.rebindCalled || so.rebindCalled }

/-- `CutModules::cut_modules` for one container: erase every captured barrier
expression from its parent block (lines 683-687), then process the stages in
ascending order. -/
def cutContainer (arena : List (Nat × Node)) (callers : List (Nat × List Nat))
    (c : Container) : Except CutPanic CutOut :=
  cutStages arena callers c (sortPairs c.sub_module_order) [] []
    { newModules := [], stitches := [], erased := c.barrier_expr, diags := [],
      trace := c.barrier_expr.map Event.eraseBarrierE, rebinds := [],
      rebindCalled := false }

/-! ### Phase P1 and full pipeline. -/

/-- Whether a module body contains a `BlockIntrinsic{Barrier}` expression
(the `has_barrier` flag of `GatherModulesToCut::visit_expr`,
`barrier_analysis.rs` lines 91-111). -/
def moduleHasBarrier (arena : List (Nat × Node)) (m : ModuleDef) : Bool :=
  m.body.any (fun k =>
    match lookupA arena k with
    | some (Node.expr Opcode.barrier _ _) => true
    | _ => false)

/-- Discovery as implemented in `barrier_analysis.rs`
(`GatherModulesToCut::visit_module` / `enter`, lines 75-146): every module of
kind `Module` is scanned except those named exactly `"testbench"`; a module
whose body holds a barrier is recorded in `submodule_container_map`. -/
def baDiscovered (sys : Sys) : List ModuleDef :=
  sys.modules.filter
    (fun m => decide (m.name ≠ "testbench") && moduleHasBarrier sys.arena m)

/-- The keys of the recorded containers. -/
def baDiscoveredKeys (sys : Sys) : List Nat :=
  (baDiscovered sys).map (fun m => m.key)

/-- Discovery as implemented in the simpler variant
(`rewrite_pipeline_buffer.rs`, `GatherModulesToCut::visit_module`,
lines 36-50): `true` iff the module body is visited at all. -/
def rpbVisitsModule (m : ModuleDef) : Bool :=
  !(m.name == "driver" || m.name == "testbench")

/-- Phase P2 for one flagged module: graph construction, barrier-level
analysis, submodule construction, assembled into the container
(`enter`, lines 119-141). -/
def analyzeModule (sys : Sys) (m : ModuleDef) (fuel : Nat) :
    Option Container := do
  let g ← runGraphVisitor sys.arena m.body
  let bmap ← gatherBarrierLevel sys.arena g fuel
  let sub ← gatherSubmodules g.adjacency bmap g.expr_hashmap
    g.module_outputs g.module_ports fuel
  pure ⟨m.name, sub.1, sub.2, g.caller_expr, g.barrier_expr⟩

/-- The whole pass on one module: P2 followed by P3. -/
def pipelineModule (sys : Sys) (m : ModuleDef)
    (callers : List (Nat × List Nat)) (fuel : Nat) :
    Option (Container × Except CutPanic CutOut) := do
  let c ← analyzeModule sys m fuel
  pure (c, cutContainer sys.arena callers c)

/-! ### Concrete systems used as test vectors and counterexamples. -/

/-- Totalizing projections for stating closed facts about pipeline runs. -/
def contOf (r : Option (Container × Except CutPanic CutOut)) : Container :=
  match r with
  | some (c, _) => c
  | none => ⟨"", [], [], [], []⟩

def outOf (r : Option (Container × Except CutPanic CutOut)) : CutOut :=
  match r with
  | some (_, Except.ok o) => o
  | _ => ⟨[], [], [], [], [], [], false⟩

def runOk (r : Option (Container × Except CutPanic CutOut)) : Bool :=
  match r with
  | some (_, Except.ok _) => true
  | _ => false

def runErr (r : Option (Container × Except CutPanic CutOut)) :
    Option CutPanic :=
  match r with
  | some (_, Except.error p) => some p
  | _ => none

/-- Module `m`: `a = pop x; b = a + a; barrier(b); c = b * b; push(out, c)`
(scenario S1 of the spec with the constant multiplier replaced by `b` so that
no immediate leaks into the cut set). -/
def exA_arena : List (Nat × Node) :=
  [ (1, Node.fifo "x"),
    (2, Node.expr Opcode.fifoPop [1] (DataType.int 32)),
    (3, Node.expr (Opcode.binary BinOp.add) [2, 2] (DataType.int 32)),
    (4, Node.expr Opcode.barrier [3] (DataType.int 32)),
    (5, Node.expr (Opcode.binary BinOp.mul) [3, 3] (DataType.int 32)),
    (6, Node.fifo "out"),
    (7, Node.expr Opcode.fifoPush [6, 5] (DataType.int 32)) ]

def exA_mod : ModuleDef := ⟨100, "m", [2, 3, 4, 5, 7]⟩

def exA_sys : Sys := ⟨[exA_mod], exA_arena⟩

def exA_run : Option (Container × Except CutPanic CutOut) :=
  pipelineModule exA_sys exA_mod [] 32

/-- Module with two barriers over distinct values that a shared consumer
collapses into one stage:
`a1 = pop x; b1 = a1 + a1; barrier(b1); a2 = pop y; b2 = a2 + a2;
barrier(b2); c = b1 + b2; push(out, c)`. -/
def exD_arena : List (Nat × Node) :=
  [ (1, Node.fifo "x"),
    (2, Node.expr Opcode.fifoPop [1] (DataType.int 32)),
    (3, Node.expr (Opcode.binary BinOp.add) [2, 2] (DataType.int 32)),
    (4, Node.expr Opcode.barrier [3] (DataType.int 32)),
    (5, Node.fifo "y"),
    (6, Node.expr Opcode.fifoPop [5] (DataType.int 32)),
    (7, Node.expr (Opcode.binary BinOp.add) [6, 6] (DataType.int 32)),
    (8, Node.expr Opcode.barrier [7] (DataType.int 32)),
    (9, Node.expr (Opcode.binary BinOp.add) [3, 7] (DataType.int 32)),
    (10, Node.fifo "out"),
    (11, Node.expr Opcode.fifoPush [10, 9] (DataType.int 32)) ]

def exD_mod : ModuleDef := ⟨100, "m", [2, 3, 4, 6, 7, 8, 9, 11]⟩

def exD_sys : Sys := ⟨[exD_mod], exD_arena⟩

def exD_run : Option (Container × Except CutPanic CutOut) :=
  pipelineModule exD_sys exD_mod [] 32

/-- Module whose downstream stage holds a `Slice` with immediate bounds
(scenario S5): `a = pop x; b = a + a; barrier(b); s = slice(b, 0, 8);
push(out, s)`. -/
def exC2_arena : List (Nat × Node) :=
  [ (1, Node.fifo "x"),
    (2, Node.expr Opcode.fifoPop [1] (DataType.int 32)),
    (3, Node.expr (Opcode.binary BinOp.add) [2, 2] (DataType.int 32)),
    (4, Node.expr Opcode.barrier [3] (DataType.int 32)),
    (21, Node.intImm 0 (DataType.int 32)),
    (22, Node.intImm 8 (DataType.int 32)),
    (5, Node.expr Opcode.slice [3, 21, 22] (DataType.bits 9)),
    (6, Node.fifo "out"),
    (7, Node.expr Opcode.fifoPush [6, 5] (DataType.bits 9)) ]

def exC2_mod : ModuleDef := ⟨100, "m", [2, 3, 4, 5, 7]⟩

def exC2_sys : Sys := ⟨[exC2_mod], exC2_arena⟩

def exC2_run : Option (Container × Except CutPanic CutOut) :=
  pipelineModule exC2_sys exC2_mod [] 32

/-- Module whose downstream stage holds an unsupported `Binary{Mod}` that no
later lookup needs (scenario S6): `a = pop x; b = a + a; barrier(b);
c = b * b; d = b % b; push(out, c)`. -/
def exC9_arena : List (Nat × Node) :=
  [ (1, Node.fifo "x"),
    (2, Node.expr Opcode.fifoPop [1] (DataType.int 32)),
    (3, Node.expr (Opcode.binary BinOp.add) [2, 2] (DataType.int 32)),
    (4, Node.expr Opcode.barrier [3] (DataType.int 32)),
    (5, Node.expr (Opcode.binary BinOp.mul) [3, 3] (DataType.int 32)),
    (6, Node.expr (Opcode.binary BinOp.mod) [3, 3] (DataType.int 32)),
    (7, Node.fifo "out"),
    (8, Node.expr Opcode.fifoPush [7, 5] (DataType.int 32)) ]

def exC9_mod : ModuleDef := ⟨100, "m", [2, 3, 4, 5, 6, 8]⟩

def exC9_sys : Sys := ⟨[exC9_mod], exC9_arena⟩

def exC9_run : Option (Container × Except CutPanic CutOut) :=
  pipelineModule exC9_sys exC9_mod [] 32

/-- Module whose barriers-out value is produced by an unsupported `Mod`:
`a = pop x; b = a + a; barrier(b); c = b % b; push(out, c)`. -/
def exC10a_arena : List (Nat × Node) :=
  [ (1, Node.fifo "x"),
    (2, Node.expr Opcode.fifoPop [1] (DataType.int 32)),
    (3, Node.expr (Opcode.binary BinOp.add) [2, 2] (DataType.int 32)),
    (4, Node.expr Opcode.barrier [3] (DataType.int 32)),
    (5, Node.expr (Opcode.binary BinOp.mod) [3, 3] (DataType.int 32)),
    (6, Node.fifo "out"),
    (7, Node.expr Opcode.fifoPush [6, 5] (DataType.int 32)) ]

def exC10a_mod : ModuleDef := ⟨100, "m", [2, 3, 4, 5, 7]⟩

def exC10a_sys : Sys := ⟨[exC10a_mod], exC10a_arena⟩

def exC10a_run : Option (Container × Except CutPanic CutOut) :=
  pipelineModule exC10a_sys exC10a_mod [] 32

/-- Scenario S1 verbatim: `a = pop x; b = a + a; barrier(b); c = b * 2;
push(out, c)` — the immediate `2` becomes a carried cut value with no stage-0
body entry. -/
def exC10b_arena : List (Nat × Node) :=
  [ (1, Node.fifo "x"),
    (2, Node.expr Opcode.fifoPop [1] (DataType.int 32)),
    (3, Node.expr (Opcode.binary BinOp.add) [2, 2] (DataType.int 32)),
    (4, Node.expr Opcode.barrier [3] (DataType.int 32)),
    (21, Node.intImm 2 (DataType.int 32)),
    (5, Node.expr (Opcode.binary BinOp.mul) [3, 21] (DataType.int 32)),
    (6, Node.fifo "out"),
    (7, Node.expr Opcode.fifoPush [6, 5] (DataType.int 32)) ]

def exC10b_mod : ModuleDef := ⟨100, "m", [2, 3, 4, 5, 7]⟩

def exC10b_sys : Sys := ⟨[exC10b_mod], exC10b_arena⟩

def exC10b_run : Option (Container × Except CutPanic CutOut) :=
  pipelineModule exC10b_sys exC10b_mod [] 32

/-- A system whose only barriered module is named `"driver"` (scenario S4's
counterpart for the driver name). -/
def exDrv_arena : List (Nat × Node) :=
  [ (1, Node.fifo "x"),
    (2, Node.expr Opcode.fifoPop [1] (DataType.int 32)),
    (3, Node.expr (Opcode.binary BinOp.add) [2, 2] (DataType.int 32)),
    (4, Node.expr Opcode.barrier [3] (DataType.int 32)) ]

def exDrv_mod : ModuleDef := ⟨200, "driver", [2, 3, 4]⟩

def exDrv_sys : Sys := ⟨[exDrv_mod], exDrv_arena⟩

/-! ### Predicates used to state the claims. -/

/-- The handle operands of an emitted instruction that the rewriter obtained
through the remap. -/
def remappedOperands : Emit → List Handle
  | Emit.binaryE _ x y => [x, y]
  | Emit.bitcastE x _ => [x]
  | Emit.sliceE x _ _ => [x]
  | _ => []

/-- The start/end operands of an emitted `Slice`, passed through unmapped. -/
def sliceBounds : Emit → List Handle
  | Emit.sliceE _ lo hi => [lo, hi]
  | _ => []

/-- All value operands of an emitted instruction that correspond to operands
of the original cloned expression. -/
def cloneOperands (e : Emit) : List Handle :=
  remappedOperands e ++ sliceBounds e

/-- Whether an emitted instruction is the clone of a body expression (as
opposed to handshake prologue). -/
def isCloneEmit : Emit → Bool
  | Emit.binaryE _ _ _ => true
  | Emit.bitcastE _ _ => true
  | Emit.sliceE _ _ _ => true
  | _ => false

/-- Whether a handle is the pop handle of one of the stage's input ports or
the clone of an expression of the same stage's body — the two alternatives
the operand-closure claim allows. -/
def popOrCloneB (order : Nat) (sm : SubModule) : Handle → Bool
  | Handle.pop o p _ => o == order && decide (p ∈ sm.buffered_ports)
  | Handle.cloneH o q _ => o == order && decide (q ∈ sm.buffered_expr)
  | _ => false

/-- The stage descriptor at a given order of a container (empty stage if the
order or key is absent). -/
def stageSmOf (c : Container) (order : Nat) : SubModule :=
  match lookupA c.sub_module_order order with
  | some k => (lookupA c.sub_module_map k).getD ⟨[], [], []⟩
  | none => ⟨[], [], []⟩

/-- First created module of a rewrite output (placeholder if none). -/
def firstNewModule (o : CutOut) : NewModule :=
  o.newModules.headD ⟨"", [], [], 0⟩

/-- The operand-closure property exactly as claimed: in every new module,
every operand of every cloned body expression is a pop handle of that stage's
ports or a clone made in that same stage. -/
def operandClosureStatedB (r : Option (Container × Except CutPanic CutOut)) :
    Bool :=
  (outOf r).newModules.all (fun nm =>
    nm.body.all (fun e =>
      !(isCloneEmit e) ||
      (cloneOperands e).all (popOrCloneB nm.order (stageSmOf (contOf r) nm.order))))

/-- The number of distinct barrier values of a module (`N'` of the quantified
claim). -/
def distinctBarrierValues (arena : List (Nat × Node)) (body : List Nat) : Nat :=
  match runGraphVisitor arena body with
  | some g => g.barrier_list.dedup.length
  | none => 0

/-- The AND-left-fold of the `fifo_valid` probes of a port list (the condition
of the emitted `wait_until`). -/
def andFoldValids (order : Nat) : List Nat → Option Handle
  | [] => none
  | p :: ps => some (ps.foldl (fun acc q => Handle.andH acc (Handle.validH order q))
      (Handle.validH order p))

/-- Count of `FIFOPop`s for a given port in a stage body. -/
def countPopsFor (p : Nat) (body : List Emit) : Nat :=
  body.countP (fun e => match e with
    | Emit.fifoPop _ q _ => q == p
    | _ => false)

/-- Count of `wait_until`s in a stage body. -/
def countWaits (body : List Emit) : Nat :=
  body.countP (fun e => match e with
    | Emit.waitUntil _ => true
    | _ => false)

/-- Instructions the rewriter can emit into a stage body: the FIFO handshake
and the supported clone opcodes (`Add`/`Sub`/`Mul` binaries, `BitCast`,
`Slice`).  In particular no block intrinsic — and hence no `Barrier` — can
appear in a stage body. -/
def emitSupported : Emit → Bool
  | Emit.binaryE b _ _ =>
    b == BinOp.add || b == BinOp.sub || b == BinOp.mul
  | _ => true

/-- Whether an event is a barrier erasure. -/
def isEraseBarrierEv : Event → Bool
  | Event.eraseBarrierE _ => true
  | _ => false

/-- Whether an event is a body-expression re-emission. -/
def isCloneEv : Event → Bool
  | Event.cloneE _ _ => true
  | _ => false

/-- Whether the expression at key `k` is a `BlockIntrinsic{Barrier}`. -/
def isBarrierKey (arena : List (Nat × Node)) (k : Nat) : Bool :=
  match lookupA arena k with
  | some (Node.expr Opcode.barrier _ _) => true
  | _ => false

/-- The module body left in the original module after the pass: the program
order with every erased key removed. -/
def finalOriginalBody (m : ModuleDef) (out : CutOut) : List Nat :=
  m.body.filter (fun k => ¬ k ∈ out.erased)

/-- Totalizing projection of a per-stage result. -/
def stageOutOrDefault : Except CutPanic StageOut → StageOut
  | Except.ok so => so
  | Except.error _ =>
    ⟨none, none, [], [], [], [], [], [], false, []⟩

/-- The module created by a stage (placeholder when the stage made none). -/
def newModuleOf (so : StageOut) : NewModule :=
  so.module.getD ⟨"", [], [], 0⟩

/-- Stage 1 of `exA`, run in isolation with the handoff stage 0 produced. -/
def exA_stage1 : Except CutPanic StageOut :=
  cutStage exA_arena [] (contOf exA_run) 1 3 [(3, Handle.orig 3)] []

/-- The graph state of `exA` just before its `FIFOPush` (key 7) is visited. -/
def statePreExA7 : GraphState :=
  (runGraphVisitor exA_arena [2, 3, 4, 5]).getD GraphState.init

/-- The graph state of `exA` just after its `FIFOPush` (key 7) is visited. -/
def statePostExA7 : GraphState :=
  (runGraphVisitor exA_arena [2, 3, 4, 5, 7]).getD GraphState.init

/-- The root-to-leaf paths of `exA`'s dependency graph from barrier value 3. -/
def exA_paths3 : List (List Nat) :=
  (dfsPaths statePostExA7.adjacency 32 3 []).getD []

/-- The port list barrier-level analysis computes for `exA`'s stage 3. -/
def exA_stagePorts : List Nat :=
  (exA_paths3.foldlM (fun acc p => processPath exA_arena statePostExA7 acc p)
    [3]).getD []

/-- Stage 1 of `exC2`, run in isolation with the handoff stage 0 produced. -/
def exC2_stage1 : Except CutPanic StageOut :=
  cutStage exC2_arena [] (contOf exC2_run) 1 3 [(3, Handle.orig 3)] []

/-- Shapes an expression clone can take: one of the three supported binaries,
a bitcast, or a slice. -/
def cloneShape (e : Emit) : Prop :=
  (∃ x y, e = Emit.binaryE BinOp.add x y) ∨
  (∃ x y, e = Emit.binaryE BinOp.sub x y) ∨
  (∃ x y, e = Emit.binaryE BinOp.mul x y) ∨
  (∃ x dt, e = Emit.bitcastE x dt) ∨
  (∃ x lo hi, e = Emit.sliceE x lo hi)

/-! ## Theorems

General lemmas about the embedded functions, then the claim theorems. -/

theorem mem_appendNew {l : List Nat} {x y : Nat} :
    y ∈ appendNew l x ↔ y ∈ l ∨ y = x := by
  unfold appendNew
  by_cases hx : x ∈ l
  · simp only [if_pos hx]
    constructor
    · exact Or.inl
    · rintro (h | rfl)
      · exact h
      · exact hx
  · simp [if_neg hx]

theorem mem_insertNat {l : List Nat} {x y : Nat} :
    y ∈ insertNat l x ↔ y ∈ l ∨ y = x := by
  unfold insertNat
  by_cases hx : x ∈ l
  · simp only [if_pos hx]
    constructor
    · exact Or.inl
    · rintro (h | rfl)
      · exact h
      · exact hx
  · simp [if_neg hx]

theorem mem_insertSortedNat {l : List Nat} {x y : Nat} :
    y ∈ insertSortedNat x l ↔ y ∈ l ∨ y = x := by
  induction l with
  | nil => simp [insertSortedNat, eq_comm]
  | cons a as ih =>
    unfold insertSortedNat
    by_cases h : x ≤ a
    · simp only [if_pos h]
      simp [eq_comm]
      tauto
    · simp only [if_neg h, List.mem_cons, ih]
      tauto

theorem mem_sortNat {l : List Nat} {y : Nat} : y ∈ sortNat l ↔ y ∈ l := by
  induction l with
  | nil => simp [sortNat]
  | cons a as ih =>
    simp only [sortNat, List.foldr_cons] at *
    rw [mem_insertSortedNat]
    simp [ih, eq_comm]
    tauto

theorem lookupA_mem {α : Type} {l : List (Nat × α)} {k : Nat} {v : α}
    (h : lookupA l k = some v) : (k, v) ∈ l := by
  unfold lookupA at h
  cases hf : l.find? (fun e => e.1 = k) with
  | none => rw [hf] at h; exact absurd h (by simp)
  | some e =>
    rw [hf] at h
    have hm := List.find?_some hf
    have he := List.mem_of_find?_eq_some hf
    simp at h hm
    obtain rfl := h
    obtain rfl := hm
    exact he

theorem mem_insertA_val {α : Type} {l : List (Nat × α)} {k k' : Nat}
    {v v' : α} (h : (k', v') ∈ insertA l k v) :
    (k', v') ∈ l ∨ (k' = k ∧ v' = v) := by
  unfold insertA at h
  rcases List.mem_append.mp h with h1 | h1
  · exact Or.inl (List.mem_of_mem_filter h1)
  · right
    simp at h1
    exact ⟨h1.1, h1.2⟩

theorem except_bind_ok {ε α β : Type} {x : Except ε α} {f : α → Except ε β}
    {b : β} (h : x >>= f = Except.ok b) :
    ∃ a, x = Except.ok a ∧ f a = Except.ok b := by
  cases x with
  | error e =>
    exact absurd h (by simp [Bind.bind, Except.bind])
  | ok a =>
    refine ⟨a, rfl, ?_⟩
    simpa [Bind.bind, Except.bind] using h

theorem except_ok_inj {ε α : Type} {a b : α}
    (h : (Except.ok a : Except ε α) = Except.ok b) : a = b := by
  injection h

/-- Characterization of a successful `mapM'` over `Except`. -/
theorem mapM'_ok_forall₂ {ε α β : Type} {f : α → Except ε β} :
    ∀ {xs : List α} {ys : List β}, xs.mapM' f = Except.ok ys →
      List.Forall₂ (fun x y => f x = Except.ok y) xs ys := by
  intro xs
  induction xs with
  | nil =>
    intro ys h
    simp only [List.mapM'] at h
    have : ([] : List β) = ys := by
      simpa [pure, Except.pure] using h
    rw [← this]
    exact List.Forall₂.nil
  | cons x xs ih =>
    intro ys h
    simp only [List.mapM'] at h
    obtain ⟨y, hy, h2⟩ := except_bind_ok h
    obtain ⟨ys', hys, h3⟩ := except_bind_ok h2
    have : y :: ys' = ys := by
      simpa [pure, Except.pure] using h3
    subst this
    exact List.Forall₂.cons hy (ih hys)

/-- Characterization of a successful `mapM` over `Except`. -/
theorem mapM_ok_forall₂ {ε α β : Type} {f : α → Except ε β}
    {xs : List α} {ys : List β} (h : xs.mapM f = Except.ok ys) :
    List.Forall₂ (fun x y => f x = Except.ok y) xs ys :=
  mapM'_ok_forall₂ (by rw [List.mapM'_eq_mapM]; exact h)

/-- Full inversion of a successful `cutStage` run at a positive order: the
intermediate results of every fallible step, and the exact shape of the
produced stage output. -/
theorem cutStage_pos_inv {arena : List (Nat × Node)}
    {callers : List (Nat × List Nat)} {c : Container} {order smKey : Nat}
    {nwfa : List (Nat × Handle)} {ncs : List (Nat × String)} {so : StageOut}
    (horder : 0 < order)
    (h : cutStage arena callers c order smKey nwfa ncs = Except.ok so) :
    ∃ sm pts intoM args pre ca nwfa2 tout,
      lookupE c.sub_module_map smKey (CutPanic.submoduleMissing smKey) =
        Except.ok sm ∧
      portTypesOf arena nwfa sm.buffered_ports = Except.ok pts ∧
      stitchTarget c ncs order = Except.ok intoM ∧
      bindArgsOf nwfa sm.buffered_ports = Except.ok args ∧
      preOf arena callers c (order == c.sub_module_order.length - 1) =
        Except.ok pre ∧
      cloneFold arena order (sortNat sm.buffered_expr)
        ⟨pts.map (fun pd => (pd.1, Handle.pop order pd.1 pd.2)),
         [], [], [], []⟩ = Except.ok ca ∧
      nwfaUpdate ca.remap sm.buffered_barriers = Except.ok nwfa2 ∧
      terminalFinish c pre ca (order == c.sub_module_order.length - 1) =
        Except.ok tout ∧
      so = { module := some ⟨c.module_name ++ "_" ++ Nat.repr order,
                      pts.map (fun pd =>
                        PortInfo.mk ("buffered_" ++ Nat.repr pd.1) pd.2),
                      ((validChain order sm.buffered_ports).1 ++
                        ((validChain order sm.buffered_ports).2.map
                          (fun hh => Emit.waitUntil hh)).toList) ++
                        pts.map (fun pd => Emit.fifoPop order pd.1 pd.2) ++
                        ca.emits,
                      order⟩,
             stitch := some ⟨intoM, c.module_name ++ "_" ++ Nat.repr order,
                             args⟩,
             nwfa := nwfa2,
             newCallers := insertA ncs order
               (c.module_name ++ "_" ++ Nat.repr order),
             diags := ca.diags, events := ca.events,
             erased := tout.1, rebinds := tout.2.1,
             rebindCalled := tout.2.2, remap := ca.remap } := by
  unfold cutStage at h
  obtain ⟨sm, hsm, h⟩ := except_bind_ok h
  simp only [if_pos horder] at h
  obtain ⟨pts, hpts, h⟩ := except_bind_ok h
  obtain ⟨intoM, hinto, h⟩ := except_bind_ok h
  obtain ⟨args, hargs, h⟩ := except_bind_ok h
  obtain ⟨pre, hpre, h⟩ := except_bind_ok h
  obtain ⟨ca, hca, h⟩ := except_bind_ok h
  obtain ⟨nwfa2, hnw, h⟩ := except_bind_ok h
  obtain ⟨tout, htout, h⟩ := except_bind_ok h
  exact ⟨sm, pts, intoM, args, pre, ca, nwfa2, tout, hsm, hpts, hinto, hargs,
    hpre, hca, hnw, htout, (except_ok_inj h).symm⟩

/-- Inversion of a successful `cutStage` run at order 0: no module, no
stitching — only the `nodes_waiting_for_asyncall` handoff. -/
theorem cutStage_zero_inv {arena : List (Nat × Node)}
    {callers : List (Nat × List Nat)} {c : Container} {smKey : Nat}
    {nwfa : List (Nat × Handle)} {ncs : List (Nat × String)} {so : StageOut}
    (h : cutStage arena callers c 0 smKey nwfa ncs = Except.ok so) :
    ∃ sm nwfa2,
      lookupE c.sub_module_map smKey (CutPanic.submoduleMissing smKey) =
        Except.ok sm ∧
      stageZeroNwfa sm nwfa = Except.ok nwfa2 ∧
      so = { module := none, stitch := none, nwfa := nwfa2, newCallers := ncs,
             diags := [], events := [], erased := [], rebinds := [],
             rebindCalled := false, remap := [] } := by
  unfold cutStage at h
  obtain ⟨sm, hsm, h⟩ := except_bind_ok h
  simp only [Nat.lt_irrefl, if_false] at h
  obtain ⟨nwfa2, hnw, h⟩ := except_bind_ok h
  exact ⟨sm, nwfa2, hsm, hnw, (except_ok_inj h).symm⟩

/-- C10: on `exC10a` the value listed in stage 1's barriers-out (key 5, a
`Binary{Mod}` skipped as unsupported) has no remap entry, and the refresh of
`nodes_waiting_for_asyncall` aborts with the line-950 unwrap panic; on
`exC10b` (spec scenario S1 verbatim) the immediate operand key 21 is carried
into stage 0's barriers-out but has no stage-0 body entry, and the handoff
aborts with the line-993 unwrap panic.  In both cases the rewrite returns no
output instead of completing with incomplete IR. -/
theorem c10_theorem :
    runErr exC10a_run = some (CutPanic.barrierOutUnmapped 5) ∧
    5 ∈ (stageSmOf (contOf exC10a_run) 1).buffered_barriers ∧
    lookupA exC10a_arena 5 =
      some (Node.expr (Opcode.binary BinOp.mod) [3, 3] (DataType.int 32)) ∧
    runOk exC10a_run = false ∧
    runErr exC10b_run = some (CutPanic.stageZeroNoExpr 21) ∧
    21 ∈ (stageSmOf (contOf exC10b_run) 0).buffered_barriers ∧
    ¬ 21 ∈ (stageSmOf (contOf exC10b_run) 0).buffered_expr ∧
    runOk exC10b_run = false := by
  refine ⟨by rfl, by decide, by rfl, by rfl, by rfl, by decide, by decide, by rfl⟩

/-- A stage at a positive order creates exactly one new module, the stage at
order 0 creates none. -/
theorem cutStage_module_count {arena : List (Nat × Node)}
    {callers : List (Nat × List Nat)} {c : Container} {order smKey : Nat}
    {nwfa : List (Nat × Handle)} {ncs : List (Nat × String)} {so : StageOut}
    (h : cutStage arena callers c order smKey nwfa ncs = Except.ok so) :
    so.module.toList.length = if 0 < order then 1 else 0 := by
  by_cases horder : 0 < order
  · obtain ⟨sm, pts, intoM, args, pre, ca, nwfa2, tout, _, _, _, _, _, _, _, _,
      hso⟩ := cutStage_pos_inv horder h
    subst hso
    simp [if_pos horder, Option.toList]
  · have h0 : order = 0 := Nat.eq_zero_of_not_pos horder
    subst h0
    obtain ⟨sm, nwfa2, _, _, hso⟩ := cutStage_zero_inv h
    subst hso
    simp [Option.toList]

/-- `cutStages` creates one module per processed entry with positive order. -/
theorem cutStages_module_count {arena : List (Nat × Node)}
    {callers : List (Nat × List Nat)} {c : Container} :
    ∀ {pairs : List (Nat × Nat)} {nwfa : List (Nat × Handle)}
      {ncs : List (Nat × String)} {out out' : CutOut},
      cutStages arena callers c pairs nwfa ncs out = Except.ok out' →
      out'.newModules.length =
        out.newModules.length + pairs.countP (fun pr => decide (0 < pr.1)) := by
  intro pairs
  induction pairs with
  | nil =>
    intro nwfa ncs out out' h
    have : out = out' := except_ok_inj h
    subst this
    simp [List.countP_nil]
  | cons pr rest ih =>
    intro nwfa ncs out out' h
    obtain ⟨order, smKey⟩ := pr
    unfold cutStages at h
    obtain ⟨so, hso, h⟩ := except_bind_ok h
    have hm := cutStage_module_count hso
    have hr := ih h
    simp only [List.length_append] at hr
    rw [hr, hm, List.countP_cons]
    by_cases horder : 0 < order
    · simp [if_pos horder, horder]
      omega
    · simp [if_neg horder, horder]

/-- The count of positive entries of `0, 1, …, m` is `m`. -/
theorem countP_pos_range (m : Nat) :
    (List.range (m + 1)).countP (fun o => decide (0 < o)) = m := by
  induction m with
  | zero => decide
  | succ m ih =>
    rw [List.range_succ, List.countP_append, ih]
    simp

/-- C1 (amended): stage 0 is a pass-through that emits no module, so the
number of new modules equals the number of processed stage entries with
positive order — one fewer than the number of stages when the stage orders
are exactly `0, …, m`; and barrier-level analysis opens no stage for a
barrier value that already occurs in a previously opened stage's port set,
so two barriers over distinct values can collapse into one stage and the
stage count can be smaller than N′ + 1. -/
theorem c1_theorem :
    (∀ (arena : List (Nat × Node)) (callers : List (Nat × List Nat))
       (c : Container) (pairs : List (Nat × Nat)) (nwfa : List (Nat × Handle))
       (ncs : List (Nat × String)) (out out' : CutOut) (m : Nat),
       cutStages arena callers c pairs nwfa ncs out = Except.ok out' →
       out.newModules = [] →
       pairs.map Prod.fst = List.range (m + 1) →
       out'.newModules.length = m) ∧
    (∀ (arena : List (Nat × Node)) (g : GraphState) (fuel : Nat)
       (map : List (Nat × List Nat)) (b : Nat),
       map.any (fun e => b ∈ e.2) = true →
       processBarrier arena g fuel map b = some map) := by
  constructor
  · intro arena callers c pairs nwfa ncs out out' m h hinit hrange
    have hcount := cutStages_module_count h
    rw [hinit] at hcount
    simp only [List.length_nil, Nat.zero_add] at hcount
    have : pairs.countP (fun pr => decide (0 < pr.1)) =
        (pairs.map Prod.fst).countP (fun o => decide (0 < o)) := by
      rw [List.countP_map]
      rfl
    rw [this, hrange, countP_pos_range] at hcount
    exact hcount
  · intro arena g fuel map b h
    unfold processBarrier
    simp [h]

/-- C1 counterexample: on `exD` (two barriers over the distinct values 3 and
7 whose shared consumer pulls 7 into stage 3's port set) the pass completes
with one new module and two stages while N′ = 2 — the claimed
`new modules = stages = N′ + 1` fails on both equalities. -/
theorem c1_counterexample :
    runOk exD_run = true ∧
    distinctBarrierValues exD_arena exD_mod.body = 2 ∧
    ¬ ((outOf exD_run).newModules.length =
         (contOf exD_run).sub_module_order.length ∧
       (contOf exD_run).sub_module_order.length =
         distinctBarrierValues exD_arena exD_mod.body + 1) := by
  refine ⟨by rfl, by rfl, by decide⟩

/-- Witness for C1: the amended statement instantiated on `exD`'s rewrite and
on the barrier value 7 that `exD`'s analysis skips. -/
theorem c1_witness :
    (outOf exD_run).newModules.length = 1 ∧
    processBarrier exD_arena GraphState.init 32 [(3, [3, 7])] 7 =
      some [(3, [3, 7])] := by
  constructor
  · exact c1_theorem.1 exD_arena [] (contOf exD_run)
      (sortPairs (contOf exD_run).sub_module_order) [] []
      { newModules := [], stitches := [],
        erased := (contOf exD_run).barrier_expr, diags := [],
        trace := (contOf exD_run).barrier_expr.map Event.eraseBarrierE,
        rebinds := [], rebindCalled := false }
      (outOf exD_run) 1 (by rfl) (by rfl) (by decide)
  · exact c1_theorem.2 exD_arena GraphState.init 32 [(3, [3, 7])] 7 (by decide)

theorem lookupE_ok {α : Type} {l : List (Nat × α)} {k : Nat} {p : CutPanic}
    {v : α} (h : lookupE l k p = Except.ok v) : lookupA l k = some v := by
  unfold lookupE at h
  cases hl : lookupA l k with
  | none => rw [hl] at h; exact absurd h (by simp)
  | some w => rw [hl] at h; exact congrArg some (except_ok_inj h)

theorem forall₂_mem_right {α β : Type} {R : α → β → Prop} :
    ∀ {xs : List α} {ys : List β}, List.Forall₂ R xs ys → ∀ {y}, y ∈ ys →
      ∃ x, x ∈ xs ∧ R x y := by
  intro xs ys h
  induction h with
  | nil => intro y hy; cases hy
  | cons hR _ ih =>
    intro y hy
    rcases List.mem_cons.mp hy with rfl | hy
    · exact ⟨_, List.mem_cons_self _ _, hR⟩
    · obtain ⟨x, hx, hxy⟩ := ih hy
      exact ⟨x, List.mem_cons_of_mem _ hx, hxy⟩

/-- Element-wise characterization of the typed port list (lines 700-706):
each entry keeps the port key and records the data type of the handle found
in `nodes_waiting_for_asyncall`. -/
theorem portTypesOf_ok {arena : List (Nat × Node)} {nwfa : List (Nat × Handle)}
    {ports : List Nat} {pts : List (Nat × DataType)}
    (h : portTypesOf arena nwfa ports = Except.ok pts) :
    List.Forall₂ (fun p pd => pd.1 = p ∧ ∃ hh, lookupA nwfa p = some hh ∧
      handleDtype arena hh = some pd.2) ports pts := by
  have hf := mapM_ok_forall₂ h
  refine hf.imp ?_
  intro p pd hpd
  obtain ⟨hh, hh1, hpd⟩ := except_bind_ok hpd
  cases hdt : handleDtype arena hh with
  | none => rw [hdt] at hpd; exact absurd hpd (by simp)
  | some dt =>
    rw [hdt] at hpd
    have he := except_ok_inj hpd
    refine ⟨by rw [← he], hh, lookupE_ok hh1, by rw [← he]; exact hdt⟩

/-- Element-wise characterization of the stitching bind-args (lines 763-786). -/
theorem bindArgsOf_ok {nwfa : List (Nat × Handle)} {ports : List Nat}
    {args : List (String × Handle)}
    (h : bindArgsOf nwfa ports = Except.ok args) :
    List.Forall₂ (fun p a => ∃ hh, lookupA nwfa p = some hh ∧
      a = ("buffered_" ++ Nat.repr p, hh)) ports args := by
  have hf := mapM_ok_forall₂ h
  refine hf.imp ?_
  intro p a hpa
  obtain ⟨hh, hh1, hpa⟩ := except_bind_ok hpa
  exact ⟨hh, lookupE_ok hh1, (except_ok_inj hpa).symm⟩

/-- What a successful clone of one body expression looks like (lines 868-931):
a fresh `cloneH` handle for the original key, remapped value operands, slice
bounds passed through as original nodes, and one of the five supported
shapes. -/
theorem cloneStep_created {arena : List (Nat × Node)} {order : Nat}
    {remap : List (Nat × Handle)} {k : Nat} {h : Handle} {e : Emit}
    (hc : cloneStep arena order remap k =
      Except.ok (CloneOutcome.created h e)) :
    (∃ dt, h = Handle.cloneH order k dt) ∧
    (∀ x ∈ remappedOperands e, ∃ k', lookupA remap k' = some x) ∧
    (∀ x ∈ sliceBounds e, ∃ k', x = Handle.orig k') ∧
    cloneShape e := by
  unfold cloneStep at hc
  cases hn : lookupA arena k with
  | none => rw [hn] at hc; exact absurd (except_ok_inj hc) (by simp)
  | some node =>
    rw [hn] at hc
    cases node with
    | expr op ops dt =>
      cases op with
      | binary b =>
        cases b with
        | add =>
          obtain ⟨k0, _, hc⟩ := except_bind_ok hc
          obtain ⟨k1, _, hc⟩ := except_bind_ok hc
          obtain ⟨h0, hr0, hc⟩ := except_bind_ok hc
          obtain ⟨h1, hr1, hc⟩ := except_bind_ok hc
          have he := except_ok_inj hc
          injection he with he1 he2
          subst he1; subst he2
          refine ⟨⟨_, rfl⟩, ?_, by simp [sliceBounds], Or.inl ⟨h0, h1, rfl⟩⟩
          intro x hx
          simp [remappedOperands] at hx
          rcases hx with rfl | rfl
          · exact ⟨k0, lookupE_ok hr0⟩
          · exact ⟨k1, lookupE_ok hr1⟩
        | sub =>
          obtain ⟨k0, _, hc⟩ := except_bind_ok hc
          obtain ⟨k1, _, hc⟩ := except_bind_ok hc
          obtain ⟨h0, hr0, hc⟩ := except_bind_ok hc
          obtain ⟨h1, hr1, hc⟩ := except_bind_ok hc
          have he := except_ok_inj hc
          injection he with he1 he2
          subst he1; subst he2
          refine ⟨⟨_, rfl⟩, ?_, by simp [sliceBounds], Or.inr (Or.inl ⟨h0, h1, rfl⟩)⟩
          intro x hx
          simp [remappedOperands] at hx
          rcases hx with rfl | rfl
          · exact ⟨k0, lookupE_ok hr0⟩
          · exact ⟨k1, lookupE_ok hr1⟩
        | mul =>
          obtain ⟨k0, _, hc⟩ := except_bind_ok hc
          obtain ⟨k1, _, hc⟩ := except_bind_ok hc
          obtain ⟨h0, hr0, hc⟩ := except_bind_ok hc
          obtain ⟨h1, hr1, hc⟩ := except_bind_ok hc
          have he := except_ok_inj hc
          injection he with he1 he2
          subst he1; subst he2
          refine ⟨⟨_, rfl⟩, ?_, by simp [sliceBounds],
            Or.inr (Or.inr (Or.inl ⟨h0, h1, rfl⟩))⟩
          intro x hx
          simp [remappedOperands] at hx
          rcases hx with rfl | rfl
          · exact ⟨k0, lookupE_ok hr0⟩
          · exact ⟨k1, lookupE_ok hr1⟩
        | bitAnd => exact absurd (except_ok_inj hc) (by simp)
        | bitOr => exact absurd (except_ok_inj hc) (by simp)
        | bitXor => exact absurd (except_ok_inj hc) (by simp)
        | shl => exact absurd (except_ok_inj hc) (by simp)
        | shr => exact absurd (except_ok_inj hc) (by simp)
        | mod => exact absurd (except_ok_inj hc) (by simp)
      | cast cc =>
        cases cc with
        | bitCast =>
          obtain ⟨k0, _, hc⟩ := except_bind_ok hc
          obtain ⟨h0, hr0, hc⟩ := except_bind_ok hc
          have he := except_ok_inj hc
          injection he with he1 he2
          subst he1; subst he2
          refine ⟨⟨_, rfl⟩, ?_, by simp [sliceBounds],
            Or.inr (Or.inr (Or.inr (Or.inl ⟨h0, _, rfl⟩)))⟩
          intro x hx
          simp [remappedOperands] at hx
          subst hx
          exact ⟨k0, lookupE_ok hr0⟩
        | zext => exact absurd (except_ok_inj hc) (by simp)
        | sext => exact absurd (except_ok_inj hc) (by simp)
      | slice =>
        obtain ⟨k0, _, hc⟩ := except_bind_ok hc
        obtain ⟨s, _, hc⟩ := except_bind_ok hc
        obtain ⟨en, _, hc⟩ := except_bind_ok hc
        obtain ⟨h0, hr0, hc⟩ := except_bind_ok hc
        have he := except_ok_inj hc
        injection he with he1 he2
        subst he1; subst he2
        refine ⟨⟨_, rfl⟩, ?_, ?_,
          Or.inr (Or.inr (Or.inr (Or.inr ⟨h0, _, _, rfl⟩)))⟩
        · intro x hx
          simp [remappedOperands] at hx
          subst hx
          exact ⟨k0, lookupE_ok hr0⟩
        · intro x hx
          simp [sliceBounds] at hx
          rcases hx with rfl | rfl
          · exact ⟨s, rfl⟩
          · exact ⟨en, rfl⟩
      | load => exact absurd (except_ok_inj hc) (by simp)
      | fifoPop => exact absurd (except_ok_inj hc) (by simp)
      | fifoPush => exact absurd (except_ok_inj hc) (by simp)
      | store => exact absurd (except_ok_inj hc) (by simp)
      | bind => exact absurd (except_ok_inj hc) (by simp)
      | asyncCall => exact absurd (except_ok_inj hc) (by simp)
      | barrier => exact absurd (except_ok_inj hc) (by simp)
      | intrinsicOther => exact absurd (except_ok_inj hc) (by simp)
      | otherOp => exact absurd (except_ok_inj hc) (by simp)
    | intImm v dt => exact absurd (except_ok_inj hc) (by simp)
    | fifo n => exact absurd (except_ok_inj hc) (by simp)
    | otherNode => exact absurd (except_ok_inj hc) (by simp)

/-- Operand-closure invariant of the body-cloning loop: provided every value
already in the remap is a pop of the stage's ports or a same-stage clone, and
every key to clone belongs to the stage's body, the final remap and every
emitted clone keep the property — each remapped operand of each clone is a
pop or same-stage clone, and slice bounds are original nodes. -/
theorem cloneFold_inv {arena : List (Nat × Node)} {order : Nat}
    {sm : SubModule} :
    ∀ {keys : List Nat} {acc0 acc1 : CloneAcc},
      cloneFold arena order keys acc0 = Except.ok acc1 →
      (∀ k ∈ keys, k ∈ sm.buffered_expr) →
      (∀ k hh, (k, hh) ∈ acc0.remap → popOrCloneB order sm hh = true) →
      (∀ e ∈ acc0.emits, isCloneEmit e = true →
        (∀ x ∈ remappedOperands e, popOrCloneB order sm x = true) ∧
        (∀ x ∈ sliceBounds e, ∃ k', x = Handle.orig k')) →
      (∀ k hh, (k, hh) ∈ acc1.remap → popOrCloneB order sm hh = true) ∧
      (∀ e ∈ acc1.emits, isCloneEmit e = true →
        (∀ x ∈ remappedOperands e, popOrCloneB order sm x = true) ∧
        (∀ x ∈ sliceBounds e, ∃ k', x = Handle.orig k')) := by
  intro keys
  induction keys with
  | nil =>
    intro acc0 acc1 h _ h1 h2
    unfold cloneFold at h
    rw [List.foldlM_nil] at h
    have : acc0 = acc1 := by simpa [pure, Except.pure] using h
    subst this
    exact ⟨h1, h2⟩
  | cons k ks ih =>
    intro acc0 acc1 h hkeys h1 h2
    unfold cloneFold at h
    rw [List.foldlM_cons] at h
    obtain ⟨acc', hstep, hrest⟩ := except_bind_ok h
    obtain ⟨outc, hstepc, hcont⟩ := except_bind_ok hstep
    have hkeys' : ∀ k' ∈ ks, k' ∈ sm.buffered_expr :=
      fun k' hk' => hkeys k' (List.mem_cons_of_mem _ hk')
    have hk : k ∈ sm.buffered_expr := hkeys k (List.mem_cons_self _ _)
    cases outc with
    | created hh e =>
      have hchar := cloneStep_created hstepc
      have hacc' : acc' = { acc0 with
          remap := insertA acc0.remap k hh,
          emits := acc0.emits ++ [e],
          toRemove := acc0.toRemove ++ [k],
          events := acc0.events ++ [Event.cloneE order k] } :=
        (except_ok_inj hcont).symm
      subst hacc'
      refine ih hrest hkeys' ?_ ?_
      · intro k' hh' hmem
        rcases mem_insertA_val hmem with hold | ⟨_, rfl⟩
        · exact h1 k' hh' hold
        · obtain ⟨dt, rfl⟩ := hchar.1
          simp [popOrCloneB, hk]
      · intro e' he' hce
        rcases List.mem_append.mp he' with hold | hnew
        · exact h2 e' hold hce
        · have : e' = e := by simpa using hnew
          subst this
          refine ⟨?_, hchar.2.2.1⟩
          intro x hx
          obtain ⟨k'', hk''⟩ := hchar.2.1 x hx
          exact h1 k'' x (lookupA_mem hk'')
    | skippedSilent =>
      have hacc' : acc' = acc0 := (except_ok_inj hcont).symm
      subst hacc'
      exact ih hrest hkeys' h1 h2
    | skippedLogged m =>
      have hacc' : acc' = { acc0 with diags := acc0.diags ++ [m] } :=
        (except_ok_inj hcont).symm
      subst hacc'
      exact ih hrest hkeys' h1 h2
    | notExprNode =>
      have hacc' : acc' = acc0 := (except_ok_inj hcont).symm
      subst hacc'
      exact ih hrest hkeys' h1 h2

/-- Every instruction the cloning loop appends has a supported clone shape. -/
theorem cloneFold_emits_shape {arena : List (Nat × Node)} {order : Nat} :
    ∀ {keys : List Nat} {acc0 acc1 : CloneAcc},
      cloneFold arena order keys acc0 = Except.ok acc1 →
      ∀ e ∈ acc1.emits, e ∈ acc0.emits ∨ cloneShape e := by
  intro keys
  induction keys with
  | nil =>
    intro acc0 acc1 h
    unfold cloneFold at h
    rw [List.foldlM_nil] at h
    have : acc0 = acc1 := by simpa [pure, Except.pure] using h
    subst this
    exact fun e he => Or.inl he
  | cons k ks ih =>
    intro acc0 acc1 h
    unfold cloneFold at h
    rw [List.foldlM_cons] at h
    obtain ⟨acc', hstep, hrest⟩ := except_bind_ok h
    obtain ⟨outc, hstepc, hcont⟩ := except_bind_ok hstep
    intro e he
    cases outc with
    | created hh e0 =>
      have hchar := cloneStep_created hstepc
      have hacc' : acc' = { acc0 with
          remap := insertA acc0.remap k hh,
          emits := acc0.emits ++ [e0],
          toRemove := acc0.toRemove ++ [k],
          events := acc0.events ++ [Event.cloneE order k] } :=
        (except_ok_inj hcont).symm
      subst hacc'
      rcases ih hrest e he with hmem | hshape
      · rcases List.mem_append.mp hmem with hold | hnew
        · exact Or.inl hold
        · have : e = e0 := by simpa using hnew
          subst this
          exact Or.inr hchar.2.2.2
      · exact Or.inr hshape
    | skippedSilent =>
      have hacc' : acc' = acc0 := (except_ok_inj hcont).symm
      subst hacc'
      exact ih hrest e he
    | skippedLogged m =>
      have hacc' : acc' = { acc0 with diags := acc0.diags ++ [m] } :=
        (except_ok_inj hcont).symm
      subst hacc'
      exact ih hrest e he
    | notExprNode =>
      have hacc' : acc' = acc0 := (except_ok_inj hcont).symm
      subst hacc'
      exact ih hrest e he

/-- The FIFO-valid prologue: the accumulated condition is the bitwise-AND
left fold of the ports' `fifo_valid` probes, and the emitted instructions are
exactly `fifo_valid`s and their pairwise AND combinations. -/
theorem validChain_spec (order : Nat) (ports : List Nat) :
    (validChain order ports).2 = andFoldValids order ports ∧
    ∀ e ∈ (validChain order ports).1,
      (∃ p, e = Emit.fifoValid order p) ∨ ∃ a b, e = Emit.andE a b := by
  have go : ∀ (ps : List Nat) (es : List Emit) (h0 : Handle),
      (∀ e ∈ es, (∃ p, e = Emit.fifoValid order p) ∨ ∃ a b, e = Emit.andE a b) →
      (ps.foldl (fun (acc : List Emit × Option Handle) p =>
        match acc.2 with
        | none => (acc.1 ++ [Emit.fifoValid order p], some (Handle.validH order p))
        | some h =>
          (acc.1 ++ [Emit.fifoValid order p, Emit.andE h (Handle.validH order p)],
           some (Handle.andH h (Handle.validH order p)))) (es, some h0)).2 =
        some (ps.foldl (fun acc q => Handle.andH acc (Handle.validH order q)) h0) ∧
      ∀ e ∈ (ps.foldl (fun (acc : List Emit × Option Handle) p =>
        match acc.2 with
        | none => (acc.1 ++ [Emit.fifoValid order p], some (Handle.validH order p))
        | some h =>
          (acc.1 ++ [Emit.fifoValid order p, Emit.andE h (Handle.validH order p)],
           some (Handle.andH h (Handle.validH order p)))) (es, some h0)).1,
        (∃ p, e = Emit.fifoValid order p) ∨ ∃ a b, e = Emit.andE a b := by
    intro ps
    induction ps with
    | nil => intro es h0 hes; exact ⟨rfl, hes⟩
    | cons p ps ih =>
      intro es h0 hes
      simp only [List.foldl_cons]
      refine ih _ _ ?_
      intro e he
      rcases List.mem_append.mp he with hold | hnew
      · exact hes e hold
      · rcases List.mem_cons.mp hnew with rfl | hnew2
        · exact Or.inl ⟨p, rfl⟩
        · have : e = Emit.andE h0 (Handle.validH order p) := by simpa using hnew2
          subst this
          exact Or.inr ⟨_, _, rfl⟩
  cases ports with
  | nil => exact ⟨rfl, fun e he => absurd he (by simp [validChain])⟩
  | cons p ps =>
    unfold validChain andFoldValids
    simp only [List.foldl_cons]
    refine go ps [Emit.fifoValid order p] (Handle.validH order p) ?_
    intro e he
    have : e = Emit.fifoValid order p := by simpa using he
    exact Or.inl ⟨p, this⟩

/-- C2 (amended): for every stage of positive order, every *remapped* operand
of every cloned body expression is either the FIFO-pop handle of one of that
stage's input ports or another expression cloned in the same stage; the
start/end operands of a cloned `Slice` are excepted — they are passed through
as the original arena nodes, outside the remap. -/
theorem c2_theorem {arena : List (Nat × Node)}
    {callers : List (Nat × List Nat)} {c : Container} {order smKey : Nat}
    {nwfa : List (Nat × Handle)} {ncs : List (Nat × String)} {so : StageOut}
    {sm : SubModule} {nm : NewModule}
    (horder : 0 < order)
    (hsm : lookupA c.sub_module_map smKey = some sm)
    (hok : cutStage arena callers c order smKey nwfa ncs = Except.ok so)
    (hm : so.module = some nm) :
    ∀ e ∈ nm.body, isCloneEmit e = true →
      (∀ x ∈ remappedOperands e, popOrCloneB order sm x = true) ∧
      (∀ x ∈ sliceBounds e, ∃ k', x = Handle.orig k') := by
  obtain ⟨sm', pts, intoM, args, pre, ca, nwfa2, tout, hsm', hpts, _, _, _,
    hca, _, _, hso⟩ := cutStage_pos_inv horder hok
  have h2 := lookupE_ok hsm'
  rw [hsm] at h2
  obtain rfl : sm = sm' := Option.some.inj h2
  subst hso
  simp only [Option.some.injEq] at hm
  intro e he hce
  rw [← hm] at he
  simp only [List.append_assoc, List.mem_append] at he
  rcases he with hv | hw | hp | hclone
  · -- prologue fifo_valid / AND instructions are not clones
    rcases (validChain_spec order sm.buffered_ports).2 e hv with ⟨p, rfl⟩ | ⟨a, b, rfl⟩
    · exact absurd hce (by simp [isCloneEmit])
    · exact absurd hce (by simp [isCloneEmit])
  · -- the wait_until is not a clone
    cases hvc : (validChain order sm.buffered_ports).2 with
    | none => rw [hvc] at hw; exact absurd hw (by simp)
    | some hcond =>
      rw [hvc] at hw
      have : e = Emit.waitUntil hcond := by simpa using hw
      subst this
      exact absurd hce (by simp [isCloneEmit])
  · -- the pops are not clones
    obtain ⟨pd, _, rfl⟩ := List.mem_map.mp hp
    exact absurd hce (by simp [isCloneEmit])
  · -- cloned instructions: the cloneFold invariant
    have hports := portTypesOf_ok hpts
    refine (cloneFold_inv hca ?_ ?_ ?_).2 e hclone hce
    · intro k hk
      exact mem_sortNat.mp hk
    · intro k hh hmem
      obtain ⟨pd, hpd, hpair⟩ := List.mem_map.mp hmem
      obtain ⟨p, hpmem, hrel⟩ := forall₂_mem_right hports hpd
      injection hpair with hk1 hk2
      subst hk2
      have : pd.1 ∈ sm.buffered_ports := hrel.1 ▸ hpmem
      simp [popOrCloneB, this]
    · intro e' he'
      exact absurd he' (by simp)

/-- C2 counterexample: on `exC2` the pass completes and stage 1's body holds
the cloned slice whose start/end operands are the original immediate nodes
21 and 22 — neither a pop handle of the stage's ports nor a same-stage
clone, so the claim as stated fails. -/
theorem c2_counterexample :
    runOk exC2_run = true ∧
    Emit.sliceE (Handle.pop 1 3 (DataType.int 32)) (Handle.orig 21)
        (Handle.orig 22) ∈ (firstNewModule (outOf exC2_run)).body ∧
    ¬ operandClosureStatedB exC2_run = true := by
  refine ⟨by rfl, by decide, by decide⟩

/-- Witness for C2: the amended statement instantiated on stage 1 of `exC2`. -/
theorem c2_witness :
    (∀ x ∈ remappedOperands (Emit.sliceE (Handle.pop 1 3 (DataType.int 32))
        (Handle.orig 21) (Handle.orig 22)),
      popOrCloneB 1 (stageSmOf (contOf exC2_run) 1) x = true) ∧
    (∀ x ∈ sliceBounds (Emit.sliceE (Handle.pop 1 3 (DataType.int 32))
        (Handle.orig 21) (Handle.orig 22)),
      ∃ k', x = Handle.orig k') := by
  refine @c2_theorem exC2_arena [] (contOf exC2_run) 1 3 [(3, Handle.orig 3)]
    [] (stageOutOrDefault exC2_stage1) (stageSmOf (contOf exC2_run) 1)
    (newModuleOf (stageOutOrDefault exC2_stage1))
    (by decide) (by rfl) (by rfl) (by rfl)
    (Emit.sliceE (Handle.pop 1 3 (DataType.int 32)) (Handle.orig 21)
      (Handle.orig 22)) (by decide) (by decide)

/-- C4 counterexample: discovery in `barrier_analysis.rs` special-cases only
`"testbench"`, so a module named `"driver"` containing a barrier is scanned
and recorded for transformation, contradicting the claim that both test
harness names are skipped. -/
theorem c4_counterexample :
    exDrv_mod ∈ baDiscovered exDrv_sys ∧ exDrv_mod.name = "driver" ∧
    ¬ (∀ m ∈ baDiscovered exDrv_sys, m.name ≠ "driver" ∧ m.name ≠ "testbench") := by
  refine ⟨by decide, by rfl, ?_⟩
  intro h
  exact (h exDrv_mod (by decide)).1 (by rfl)

/-- C4 (amended): discovery in `barrier_analysis.rs` records exactly the
modules whose name is not `"testbench"` and whose body contains a barrier —
`"driver"` is *not* skipped there; only the simpler variant in
`rewrite_pipeline_buffer.rs` skips both `"driver"` and `"testbench"`. -/
theorem c4_theorem :
    (∀ (sys : Sys) (k : Nat),
       k ∈ baDiscoveredKeys sys ↔
       ∃ m, m ∈ sys.modules ∧ m.key = k ∧ m.name ≠ "testbench" ∧
         moduleHasBarrier sys.arena m = true) ∧
    (∀ m : ModuleDef, rpbVisitsModule m = false ↔
       (m.name = "driver" ∨ m.name = "testbench")) := by
  constructor
  · intro sys k
    simp only [baDiscoveredKeys, baDiscovered, List.mem_map, List.mem_filter,
      Bool.and_eq_true, decide_eq_true_eq]
    constructor
    · rintro ⟨m, ⟨hm, hn, hb⟩, rfl⟩
      exact ⟨m, hm, rfl, hn, hb⟩
    · rintro ⟨m, hm, rfl, hn, hb⟩
      exact ⟨m, ⟨hm, hn, hb⟩, rfl⟩
  · intro m
    simp only [rpbVisitsModule, Bool.not_eq_false', Bool.or_eq_true, beq_iff_eq]

theorem forall₂_map_eq {α β : Type} {R : α → β → Prop} {f : β → α} :
    ∀ {xs : List α} {ys : List β}, List.Forall₂ R xs ys →
      (∀ x y, R x y → f y = x) → ys.map f = xs := by
  intro xs ys h
  induction h with
  | nil => intro _; rfl
  | cons hR _ ih =>
    intro hf
    simp only [List.map_cons, ih hf, hf _ _ hR]

/-- Every key of the refreshed `nodes_waiting_for_asyncall` is a barriers-out
key: the map was cleared before the refresh. -/
theorem nwfaUpdate_keys {remap : List (Nat × Handle)} :
    ∀ {barriers : List Nat} {nwfa2 : List (Nat × Handle)},
      nwfaUpdate remap barriers = Except.ok nwfa2 →
      ∀ k hh, (k, hh) ∈ nwfa2 → k ∈ barriers := by
  have go : ∀ (bs : List Nat) (acc res : List (Nat × Handle)),
      bs.foldlM (fun acc p => do
        let h ← lookupE remap p (CutPanic.barrierOutUnmapped p)
        Except.ok (insertA acc p h)) acc = Except.ok res →
      ∀ k hh, (k, hh) ∈ res → (k, hh) ∈ acc ∨ k ∈ bs := by
    intro bs
    induction bs with
    | nil =>
      intro acc res h k hh hm
      rw [List.foldlM_nil] at h
      have : acc = res := by simpa [pure, Except.pure] using h
      subst this
      exact Or.inl hm
    | cons b bs ih =>
      intro acc res h k hh hm
      rw [List.foldlM_cons] at h
      obtain ⟨acc', hstep, hrest⟩ := except_bind_ok h
      obtain ⟨hb, _, hacc'⟩ := except_bind_ok hstep
      have : insertA acc b hb = acc' := by
        simpa [pure, Except.pure] using hacc'
      subst this
      rcases ih _ _ hrest k hh hm with hin | hin
      · rcases mem_insertA_val hin with hold | ⟨rfl, _⟩
        · exact Or.inl hold
        · exact Or.inr (List.mem_cons_self _ _)
      · exact Or.inr (List.mem_cons_of_mem _ hin)
  intro barriers nwfa2 h k hh hm
  rcases go barriers [] nwfa2 h k hh hm with hin | hin
  · cases hin
  · exact hin

/-- C5: for every stage of positive order with a non-empty, duplicate-free
port list, the created module has exactly one `PortInfo` per entry of the
stage's ports-in, named `buffered_<origKey>` and typed from the handle found
in `nodes_waiting_for_asyncall`; its body is, in program order, the per-port
`fifo_valid` probes AND-folded into the condition of a single `wait_until`,
followed by exactly one `FIFOPop` per port, followed by the clones — and the
remap the cloning starts from maps each port key to its pop handle. -/
theorem c5_theorem {arena : List (Nat × Node)}
    {callers : List (Nat × List Nat)} {c : Container} {order smKey : Nat}
    {nwfa : List (Nat × Handle)} {ncs : List (Nat × String)} {so : StageOut}
    {sm : SubModule}
    (horder : 0 < order)
    (hsm : lookupA c.sub_module_map smKey = some sm)
    (hnd : sm.buffered_ports.Nodup)
    (hne : sm.buffered_ports ≠ [])
    (hok : cutStage arena callers c order smKey nwfa ncs = Except.ok so) :
    ∃ nm pts cond clones,
      so.module = some nm ∧
      portTypesOf arena nwfa sm.buffered_ports = Except.ok pts ∧
      nm.ports = pts.map (fun pd =>
        PortInfo.mk ("buffered_" ++ Nat.repr pd.1) pd.2) ∧
      List.Forall₂ (fun p pd => pd.1 = p ∧ ∃ hh, lookupA nwfa p = some hh ∧
        handleDtype arena hh = some pd.2) sm.buffered_ports pts ∧
      andFoldValids order sm.buffered_ports = some cond ∧
      nm.body = (validChain order sm.buffered_ports).1 ++
        [Emit.waitUntil cond] ++
        pts.map (fun pd => Emit.fifoPop order pd.1 pd.2) ++ clones ∧
      (∀ e ∈ clones, cloneShape e) ∧
      countWaits nm.body = 1 ∧
      (∀ p ∈ sm.buffered_ports, countPopsFor p nm.body = 1) ∧
      (∃ queue, cloneFold arena order (sortNat sm.buffered_expr)
        ⟨pts.map (fun pd => (pd.1, Handle.pop order pd.1 pd.2)),
         [], [], [], []⟩ =
        Except.ok ⟨so.remap, clones, so.diags, queue, so.events⟩) := by
  obtain ⟨sm', pts, intoM, args, pre, ca, nwfa2, tout, hsm', hpts, _, _, _,
    hca, _, _, hso⟩ := cutStage_pos_inv horder hok
  have h2 := lookupE_ok hsm'
  rw [hsm] at h2
  obtain rfl : sm = sm' := Option.some.inj h2
  subst hso
  have hvc := validChain_spec order sm.buffered_ports
  obtain ⟨p0, ps0, hports0⟩ := List.exists_cons_of_ne_nil hne
  have hcond : ∃ cond, andFoldValids order sm.buffered_ports = some cond := by
    rw [hports0]
    exact ⟨_, rfl⟩
  obtain ⟨cond, hcond⟩ := hcond
  have hsnd : (validChain order sm.buffered_ports).2 = some cond := by
    rw [hvc.1, hcond]
  have hfst := hvc.2
  have hportsF := portTypesOf_ok hpts
  have hfsts : pts.map Prod.fst = sm.buffered_ports :=
    forall₂_map_eq hportsF (fun x y hy => hy.1)
  refine ⟨_, pts, cond, ca.emits, rfl, hpts, rfl, hportsF, hcond, ?_, ?_, ?_, ?_,
    ⟨ca.toRemove, hca⟩⟩
  · -- body decomposition
    rw [hsnd]
    rfl
  · -- clones have the supported shapes
    intro e he
    rcases cloneFold_emits_shape hca e he with hin | hs
    · exact absurd hin (by simp)
    · exact hs
  · -- exactly one wait_until
    simp only [countWaits, hsnd, Option.map_some, Option.toList_some,
      List.countP_append]
    have h1 : (validChain order sm.buffered_ports).1.countP
        (fun e => match e with | Emit.waitUntil _ => true | _ => false) = 0 := by
      rw [List.countP_eq_zero]
      intro e he
      rcases hfst e he with ⟨p, rfl⟩ | ⟨a, b, rfl⟩ <;> simp
    have h2' : (pts.map (fun pd => Emit.fifoPop order pd.1 pd.2)).countP
        (fun e => match e with | Emit.waitUntil _ => true | _ => false) = 0 := by
      rw [List.countP_eq_zero]
      intro e he
      obtain ⟨pd, _, rfl⟩ := List.mem_map.mp he
      simp
    have h3 : ca.emits.countP
        (fun e => match e with | Emit.waitUntil _ => true | _ => false) = 0 := by
      rw [List.countP_eq_zero]
      intro e he
      rcases cloneFold_emits_shape hca e he with hin | hs
      · exact absurd hin (by simp)
      · rcases hs with ⟨x, y, rfl⟩ | ⟨x, y, rfl⟩ | ⟨x, y, rfl⟩ | ⟨x, dt, rfl⟩ |
          ⟨x, lo, hi, rfl⟩ <;> simp
    rw [h1, h2', h3]
    simp
  · -- exactly one pop per port
    intro p hp
    unfold countPopsFor
    rw [hsnd]
    simp only [List.countP_append]
    have h1 : (validChain order sm.buffered_ports).1.countP
        (fun e => match e with | Emit.fifoPop _ q _ => q == p | _ => false) = 0 := by
      rw [List.countP_eq_zero]
      intro e he
      rcases hfst e he with ⟨q, rfl⟩ | ⟨a, b, rfl⟩ <;> simp
    have h2' : ([Emit.waitUntil cond]).countP
        (fun e => match e with | Emit.fifoPop _ q _ => q == p | _ => false) = 0 := by
      simp
    have h3 : ca.emits.countP
        (fun e => match e with | Emit.fifoPop _ q _ => q == p | _ => false) = 0 := by
      rw [List.countP_eq_zero]
      intro e he
      rcases cloneFold_emits_shape hca e he with hin | hs
      · exact absurd hin (by simp)
      · rcases hs with ⟨x, y, rfl⟩ | ⟨x, y, rfl⟩ | ⟨x, y, rfl⟩ | ⟨x, dt, rfl⟩ |
          ⟨x, lo, hi, rfl⟩ <;> simp
    have h4 : (pts.map (fun pd => Emit.fifoPop order pd.1 pd.2)).countP
        (fun e => match e with | Emit.fifoPop _ q _ => q == p | _ => false) = 1 := by
      rw [List.countP_map]
      have : ((fun e => match e with | Emit.fifoPop _ q _ => q == p | _ => false) ∘
          (fun pd : Nat × DataType => Emit.fifoPop order pd.1 pd.2)) =
          (fun pd : Nat × DataType => pd.1 == p) := by
        funext pd
        rfl
      rw [this]
      have hmap : pts.countP (fun pd => pd.1 == p) =
          (pts.map Prod.fst).countP (fun q => q == p) := by
        rw [List.countP_map]
        rfl
      rw [hmap, hfsts]
      rw [← List.count_eq_countP]
      exact List.count_eq_one_of_mem hnd hp
    have htl : (Option.map (fun hh => Emit.waitUntil hh) (some cond)).toList =
        [Emit.waitUntil cond] := rfl
    rw [htl, h1, h2', h3, h4]

/-- Witness for C5: the statement instantiated on stage 1 of `exA`. -/
theorem c5_witness :
    ∃ nm pts cond clones,
      (stageOutOrDefault exA_stage1).module = some nm ∧
      portTypesOf exA_arena [(3, Handle.orig 3)]
        (stageSmOf (contOf exA_run) 1).buffered_ports = Except.ok pts ∧
      nm.ports = pts.map (fun pd =>
        PortInfo.mk ("buffered_" ++ Nat.repr pd.1) pd.2) ∧
      List.Forall₂ (fun p pd => pd.1 = p ∧
        ∃ hh, lookupA [(3, Handle.orig 3)] p = some hh ∧
          handleDtype exA_arena hh = some pd.2)
        (stageSmOf (contOf exA_run) 1).buffered_ports pts ∧
      andFoldValids 1 (stageSmOf (contOf exA_run) 1).buffered_ports =
        some cond ∧
      nm.body = (validChain 1 (stageSmOf (contOf exA_run) 1).buffered_ports).1 ++
        [Emit.waitUntil cond] ++
        pts.map (fun pd => Emit.fifoPop 1 pd.1 pd.2) ++ clones ∧
      (∀ e ∈ clones, cloneShape e) ∧
      countWaits nm.body = 1 ∧
      (∀ p ∈ (stageSmOf (contOf exA_run) 1).buffered_ports,
        countPopsFor p nm.body = 1) ∧
      (∃ queue, cloneFold exA_arena 1
        (sortNat (stageSmOf (contOf exA_run) 1).buffered_expr)
        ⟨pts.map (fun pd => (pd.1, Handle.pop 1 pd.1 pd.2)), [], [], [], []⟩ =
        Except.ok ⟨(stageOutOrDefault exA_stage1).remap, clones,
          (stageOutOrDefault exA_stage1).diags, queue,
          (stageOutOrDefault exA_stage1).events⟩) :=
  @c5_theorem exA_arena [] (contOf exA_run) 1 3 [(3, Handle.orig 3)] []
    (stageOutOrDefault exA_stage1) (stageSmOf (contOf exA_run) 1)
    (by decide) (by rfl) (by decide) (by decide) (by rfl)

/-- C6: for every stage of positive order the stitch is emitted into the
predecessor module — the original module when the predecessor is stage 0,
the previously created stage module otherwise —, it targets the new stage
module's init-bind, carries one `bind_arg` per successor port with the handle
stored in `nodes_waiting_for_asyncall` under the port's original key, is
completed by exactly one `async_call` (the single `Stitch` record), and the
handoff map is cleared: every key surviving in it afterwards comes from the
stage's barriers-out refresh. -/
theorem c6_theorem {arena : List (Nat × Node)}
    {callers : List (Nat × List Nat)} {c : Container} {order smKey : Nat}
    {nwfa : List (Nat × Handle)} {ncs : List (Nat × String)} {so : StageOut}
    {sm : SubModule}
    (horder : 0 < order)
    (hsm : lookupA c.sub_module_map smKey = some sm)
    (hok : cutStage arena callers c order smKey nwfa ncs = Except.ok so) :
    ∃ st,
      so.stitch = some st ∧
      st.target = c.module_name ++ "_" ++ Nat.repr order ∧
      (order = 1 → st.intoModule = c.module_name) ∧
      (1 < order → ∃ pn, lookupA ncs (order - 1) = some pn ∧
        st.intoModule = pn) ∧
      List.Forall₂ (fun p a => ∃ hh, lookupA nwfa p = some hh ∧
        a = ("buffered_" ++ Nat.repr p, hh)) sm.buffered_ports st.bindArgs ∧
      (∀ k hh, (k, hh) ∈ so.nwfa → k ∈ sm.buffered_barriers) := by
  obtain ⟨sm', pts, intoM, args, pre, ca, nwfa2, tout, hsm', hpts, hinto,
    hargs, _, hca, hnw, _, hso⟩ := cutStage_pos_inv horder hok
  have h2 := lookupE_ok hsm'
  rw [hsm] at h2
  obtain rfl : sm = sm' := Option.some.inj h2
  subst hso
  refine ⟨⟨intoM, c.module_name ++ "_" ++ Nat.repr order, args⟩, rfl, rfl,
    ?_, ?_, bindArgsOf_ok hargs, ?_⟩
  · intro h1
    subst h1
    unfold stitchTarget at hinto
    simp only [Nat.lt_irrefl, if_false] at hinto
    exact (except_ok_inj hinto).symm
  · intro h1
    unfold stitchTarget at hinto
    rw [if_pos h1] at hinto
    exact ⟨intoM, lookupE_ok hinto, rfl⟩
  · intro k hh hmem
    exact nwfaUpdate_keys hnw k hh hmem

/-- Witness for C6: the statement instantiated on stage 1 of `exA`. -/
theorem c6_witness :
    ∃ st,
      (stageOutOrDefault exA_stage1).stitch = some st ∧
      st.target = (contOf exA_run).module_name ++ "_" ++ Nat.repr 1 ∧
      (1 = 1 → st.intoModule = (contOf exA_run).module_name) ∧
      (1 < 1 → ∃ pn, lookupA ([] : List (Nat × String)) (1 - 1) = some pn ∧
        st.intoModule = pn) ∧
      List.Forall₂ (fun p a => ∃ hh, lookupA [(3, Handle.orig 3)] p = some hh ∧
        a = ("buffered_" ++ Nat.repr p, hh))
        (stageSmOf (contOf exA_run) 1).buffered_ports st.bindArgs ∧
      (∀ k hh, (k, hh) ∈ (stageOutOrDefault exA_stage1).nwfa →
        k ∈ (stageSmOf (contOf exA_run) 1).buffered_barriers) :=
  @c6_theorem exA_arena [] (contOf exA_run) 1 3 [(3, Handle.orig 3)] []
    (stageOutOrDefault exA_stage1) (stageSmOf (contOf exA_run) 1)
    (by decide) (by rfl) (by rfl)

/-- C7: during graph construction, a `FIFOPush`/`Store` contributes no
dependency edge and appends its data operand (index 1) to the module outputs;
a `Slice` contributes exactly the edge from its operand 0 to its own key; a
`Load`/`FIFOPop` appends its key to the module input ports; and every other
recorded expression (not a barrier, `Bind` or `AsyncCall`) contributes one
edge per operand, from the operand's key to the expression's key, leaving the
outputs untouched. -/
theorem c7_theorem {arena : List (Nat × Node)} {st st' : GraphState} {k : Nat}
    {op : Opcode} {ops : List Nat} {dt : DataType}
    (hn : lookupA arena k = some (Node.expr op ops dt))
    (h : visitExprStep arena st k = some st') :
    ((op = Opcode.fifoPush ∨ op = Opcode.store) →
      st'.adjacency = st.adjacency ∧
      ∃ d, ops.get? 1 = some d ∧
        st'.module_outputs = st.module_outputs ++ [d]) ∧
    (op = Opcode.slice →
      (∃ b, ops.get? 0 = some b ∧
        st'.adjacency = st.adjacency ++ [(b, k)]) ∧
      st'.module_outputs = st.module_outputs) ∧
    ((op = Opcode.load ∨ op = Opcode.fifoPop) →
      st'.module_ports = st.module_ports ++ [k] ∧
      st'.adjacency = st.adjacency ++ ops.map (fun o => (o, k))) ∧
    (¬ op ∈ [Opcode.fifoPush, Opcode.store, Opcode.slice, Opcode.barrier,
             Opcode.bind, Opcode.asyncCall] →
      st'.adjacency = st.adjacency ++ ops.map (fun o => (o, k)) ∧
      st'.module_outputs = st.module_outputs ∧
      k ∈ st'.expr_hashmap) := by
  cases op with
  | load =>
    have hv : visitExprStep arena st k =
        some { st with
               expr_hashmap := insertNat st.expr_hashmap k,
               module_ports := st.module_ports ++ [k],
               adjacency := st.adjacency ++ ops.map (fun o => (o, k)) } := by
      unfold visitExprStep
      rw [hn]
      rfl
    rw [h] at hv
    obtain rfl := Option.some.inj hv
    refine ⟨fun h1 => absurd h1 (by simp), fun h1 => absurd h1 (by simp),
      fun _ => ⟨rfl, rfl⟩, fun _ => ⟨rfl, rfl, ?_⟩⟩
    exact mem_insertNat.mpr (Or.inr rfl)
  | fifoPop =>
    have hv : visitExprStep arena st k =
        some { st with
               expr_hashmap := insertNat st.expr_hashmap k,
               module_ports := st.module_ports ++ [k],
               adjacency := st.adjacency ++ ops.map (fun o => (o, k)) } := by
      unfold visitExprStep
      rw [hn]
      rfl
    rw [h] at hv
    obtain rfl := Option.some.inj hv
    refine ⟨fun h1 => absurd h1 (by simp), fun h1 => absurd h1 (by simp),
      fun _ => ⟨rfl, rfl⟩, fun _ => ⟨rfl, rfl, ?_⟩⟩
    exact mem_insertNat.mpr (Or.inr rfl)
  | fifoPush =>
    have hv : visitExprStep arena st k =
        (match ops.get? 1 with
         | some d => some { st with
             caller_expr := insertNat st.caller_expr k,
             expr_hashmap := insertNat st.expr_hashmap k,
             module_outputs := st.module_outputs ++ [d] }
         | none => none) := by
      unfold visitExprStep
      rw [hn]
      rfl
    cases hd : ops.get? 1 with
    | none =>
      rw [hd, h] at hv
      exact absurd hv (by simp)
    | some d =>
      rw [hd, h] at hv
      obtain rfl := Option.some.inj hv
      exact ⟨fun _ => ⟨rfl, d, rfl, rfl⟩, fun h1 => absurd h1 (by simp),
        fun h1 => absurd h1 (by simp), fun h1 => absurd (by simp) h1⟩
  | store =>
    have hv : visitExprStep arena st k =
        (match ops.get? 1 with
         | some d => some { st with
             expr_hashmap := insertNat st.expr_hashmap k,
             module_outputs := st.module_outputs ++ [d] }
         | none => none) := by
      unfold visitExprStep
      rw [hn]
      rfl
    cases hd : ops.get? 1 with
    | none =>
      rw [hd, h] at hv
      exact absurd hv (by simp)
    | some d =>
      rw [hd, h] at hv
      obtain rfl := Option.some.inj hv
      exact ⟨fun _ => ⟨rfl, d, rfl, rfl⟩, fun h1 => absurd h1 (by simp),
        fun h1 => absurd h1 (by simp), fun h1 => absurd (by simp) h1⟩
  | slice =>
    have hv : visitExprStep arena st k =
        (match ops.get? 0 with
         | some b => some { st with
             expr_hashmap := insertNat st.expr_hashmap k,
             adjacency := st.adjacency ++ [(b, k)] }
         | none => none) := by
      unfold visitExprStep
      rw [hn]
      rfl
    cases hd : ops.get? 0 with
    | none =>
      rw [hd, h] at hv
      exact absurd hv (by simp)
    | some b =>
      rw [hd, h] at hv
      obtain rfl := Option.some.inj hv
      exact ⟨fun h1 => absurd h1 (by simp), fun _ => ⟨⟨b, rfl, rfl⟩, rfl⟩,
        fun h1 => absurd h1 (by simp), fun h1 => absurd (by simp) h1⟩
  | barrier =>
    exact ⟨fun h1 => absurd h1 (by simp), fun h1 => absurd h1 (by simp),
      fun h1 => absurd h1 (by simp), fun h1 => absurd (by simp) h1⟩
  | bind =>
    exact ⟨fun h1 => absurd h1 (by simp), fun h1 => absurd h1 (by simp),
      fun h1 => absurd h1 (by simp), fun h1 => absurd (by simp) h1⟩
  | asyncCall =>
    exact ⟨fun h1 => absurd h1 (by simp), fun h1 => absurd h1 (by simp),
      fun h1 => absurd h1 (by simp), fun h1 => absurd (by simp) h1⟩
  | intrinsicOther =>
    have hv : visitExprStep arena st k =
        some { st with
               expr_hashmap := insertNat st.expr_hashmap k,
               adjacency := st.adjacency ++ ops.map (fun o => (o, k)) } := by
      unfold visitExprStep
      rw [hn]
      rfl
    rw [h] at hv
    obtain rfl := Option.some.inj hv
    refine ⟨fun h1 => absurd h1 (by simp), fun h1 => absurd h1 (by simp),
      fun h1 => absurd h1 (by simp), fun _ => ⟨rfl, rfl, ?_⟩⟩
    exact mem_insertNat.mpr (Or.inr rfl)
  | binary b =>
    have hv : visitExprStep arena st k =
        some { st with
               expr_hashmap := insertNat st.expr_hashmap k,
               adjacency := st.adjacency ++ ops.map (fun o => (o, k)) } := by
      unfold visitExprStep
      rw [hn]
      rfl
    rw [h] at hv
    obtain rfl := Option.some.inj hv
    refine ⟨fun h1 => absurd h1 (by simp), fun h1 => absurd h1 (by simp),
      fun h1 => absurd h1 (by simp), fun _ => ⟨rfl, rfl, ?_⟩⟩
    exact mem_insertNat.mpr (Or.inr rfl)
  | cast cc =>
    have hv : visitExprStep arena st k =
        some { st with
               expr_hashmap := insertNat st.expr_hashmap k,
               adjacency := st.adjacency ++ ops.map (fun o => (o, k)) } := by
      unfold visitExprStep
      rw [hn]
      rfl
    rw [h] at hv
    obtain rfl := Option.some.inj hv
    refine ⟨fun h1 => absurd h1 (by simp), fun h1 => absurd h1 (by simp),
      fun h1 => absurd h1 (by simp), fun _ => ⟨rfl, rfl, ?_⟩⟩
    exact mem_insertNat.mpr (Or.inr rfl)
  | otherOp =>
    have hv : visitExprStep arena st k =
        some { st with
               expr_hashmap := insertNat st.expr_hashmap k,
               adjacency := st.adjacency ++ ops.map (fun o => (o, k)) } := by
      unfold visitExprStep
      rw [hn]
      rfl
    rw [h] at hv
    obtain rfl := Option.some.inj hv
    refine ⟨fun h1 => absurd h1 (by simp), fun h1 => absurd h1 (by simp),
      fun h1 => absurd h1 (by simp), fun _ => ⟨rfl, rfl, ?_⟩⟩
    exact mem_insertNat.mpr (Or.inr rfl)

theorem option_bind_some {α β : Type} {x : Option α} {f : α → Option β}
    {b : β} (h : x >>= f = some b) : ∃ a, x = some a ∧ f a = some b := by
  cases x with
  | none => exact absurd h (by simp)
  | some a => exact ⟨a, rfl, by simpa using h⟩

/-- The graph visitor never drops a captured barrier expression, and visiting
a barrier expression captures it. -/
theorem visitExprStep_barrier {arena : List (Nat × Node)} {st st' : GraphState}
    {k : Nat} (h : visitExprStep arena st k = some st') :
    (∀ x ∈ st.barrier_expr, x ∈ st'.barrier_expr) ∧
    (isBarrierKey arena k = true → k ∈ st'.barrier_expr) := by
  have hnotbar : ∀ (hn : Option Node), lookupA arena k = hn →
      (match hn with
       | some (Node.expr Opcode.barrier _ _) => False
       | _ => True) → isBarrierKey arena k = true → False := by
    intro hn he hne hb
    unfold isBarrierKey at hb
    rw [he] at hb
    cases hn with
    | none => exact absurd hb (by simp)
    | some node =>
      cases node with
      | expr op ops dt =>
        cases op <;> first
          | exact hne
          | exact absurd hb (by simp)
      | intImm v dt => exact absurd hb (by simp)
      | fifo n => exact absurd hb (by simp)
      | otherNode => exact absurd hb (by simp)
  cases hn : lookupA arena k with
  | none =>
    have hv : visitExprStep arena st k = some st := by
      unfold visitExprStep
      rw [hn]
    rw [h] at hv
    obtain rfl := Option.some.inj hv
    exact ⟨fun x hx => hx, fun hb => absurd hb (by
      intro hb
      exact hnotbar _ hn trivial hb)⟩
  | some node =>
    cases node with
    | expr op ops dt =>
      cases op with
      | barrier =>
        have hv : visitExprStep arena st k =
            (match ops.get? 0 with
             | some b => some { st with
                 barrier_list := st.barrier_list ++ [b],
                 barrier_expr := insertNat st.barrier_expr k }
             | none => none) := by
          unfold visitExprStep
          rw [hn]
          try rfl
        cases hd : ops.get? 0 with
        | none =>
          rw [hd, h] at hv
          exact absurd hv (by simp)
        | some b =>
          rw [hd, h] at hv
          obtain rfl := Option.some.inj hv
          exact ⟨fun x hx => mem_insertNat.mpr (Or.inl hx),
            fun _ => mem_insertNat.mpr (Or.inr rfl)⟩
      | bind =>
        have hv : visitExprStep arena st k =
            some { st with caller_expr := insertNat st.caller_expr k } := by
          unfold visitExprStep
          rw [hn]
        rw [h] at hv
        obtain rfl := Option.some.inj hv
        exact ⟨fun x hx => hx, fun hb => absurd (hnotbar _ hn trivial hb) id⟩
      | asyncCall =>
        have hv : visitExprStep arena st k =
            some { st with caller_expr := insertNat st.caller_expr k } := by
          unfold visitExprStep
          rw [hn]
        rw [h] at hv
        obtain rfl := Option.some.inj hv
        exact ⟨fun x hx => hx, fun hb => absurd (hnotbar _ hn trivial hb) id⟩
      | load =>
        have hv : visitExprStep arena st k =
            some { st with
                   expr_hashmap := insertNat st.expr_hashmap k,
                   module_ports := st.module_ports ++ [k],
                   adjacency := st.adjacency ++ ops.map (fun o => (o, k)) } := by
          unfold visitExprStep
          rw [hn]
          try rfl
        rw [h] at hv
        obtain rfl := Option.some.inj hv
        exact ⟨fun x hx => hx, fun hb => absurd (hnotbar _ hn trivial hb) id⟩
      | fifoPop =>
        have hv : visitExprStep arena st k =
            some { st with
                   expr_hashmap := insertNat st.expr_hashmap k,
                   module_ports := st.module_ports ++ [k],
                   adjacency := st.adjacency ++ ops.map (fun o => (o, k)) } := by
          unfold visitExprStep
          rw [hn]
          try rfl
        rw [h] at hv
        obtain rfl := Option.some.inj hv
        exact ⟨fun x hx => hx, fun hb => absurd (hnotbar _ hn trivial hb) id⟩
      | fifoPush =>
        have hv : visitExprStep arena st k =
            (match ops.get? 1 with
             | some d => some { st with
                 caller_expr := insertNat st.caller_expr k,
                 expr_hashmap := insertNat st.expr_hashmap k,
                 module_outputs := st.module_outputs ++ [d] }
             | none => none) := by
          unfold visitExprStep
          rw [hn]
          try rfl
        cases hd : ops.get? 1 with
        | none =>
          rw [hd, h] at hv
          exact absurd hv (by simp)
        | some d =>
          rw [hd, h] at hv
          obtain rfl := Option.some.inj hv
          exact ⟨fun x hx => hx, fun hb => absurd (hnotbar _ hn trivial hb) id⟩
      | store =>
        have hv : visitExprStep arena st k =
            (match ops.get? 1 with
             | some d => some { st with
                 expr_hashmap := insertNat st.expr_hashmap k,
                 module_outputs := st.module_outputs ++ [d] }
             | none => none) := by
          unfold visitExprStep
          rw [hn]
          try rfl
        cases hd : ops.get? 1 with
        | none =>
          rw [hd, h] at hv
          exact absurd hv (by simp)
        | some d =>
          rw [hd, h] at hv
          obtain rfl := Option.some.inj hv
          exact ⟨fun x hx => hx, fun hb => absurd (hnotbar _ hn trivial hb) id⟩
      | slice =>
        have hv : visitExprStep arena st k =
            (match ops.get? 0 with
             | some b => some { st with
                 expr_hashmap := insertNat st.expr_hashmap k,
                 adjacency := st.adjacency ++ [(b, k)] }
             | none => none) := by
          unfold visitExprStep
          rw [hn]
          try rfl
        cases hd : ops.get? 0 with
        | none =>
          rw [hd, h] at hv
          exact absurd hv (by simp)
        | some b =>
          rw [hd, h] at hv
          obtain rfl := Option.some.inj hv
          exact ⟨fun x hx => hx, fun hb => absurd (hnotbar _ hn trivial hb) id⟩
      | intrinsicOther =>
        have hv : visitExprStep arena st k =
            some { st with
                   expr_hashmap := insertNat st.expr_hashmap k,
                   adjacency := st.adjacency ++ ops.map (fun o => (o, k)) } := by
          unfold visitExprStep
          rw [hn]
          try rfl
        rw [h] at hv
        obtain rfl := Option.some.inj hv
        exact ⟨fun x hx => hx, fun hb => absurd (hnotbar _ hn trivial hb) id⟩
      | binary b =>
        have hv : visitExprStep arena st k =
            some { st with
                   expr_hashmap := insertNat st.expr_hashmap k,
                   adjacency := st.adjacency ++ ops.map (fun o => (o, k)) } := by
          unfold visitExprStep
          rw [hn]
          try rfl
        rw [h] at hv
        obtain rfl := Option.some.inj hv
        exact ⟨fun x hx => hx, fun hb => absurd (hnotbar _ hn trivial hb) id⟩
      | cast cc =>
        have hv : visitExprStep arena st k =
            some { st with
                   expr_hashmap := insertNat st.expr_hashmap k,
                   adjacency := st.adjacency ++ ops.map (fun o => (o, k)) } := by
          unfold visitExprStep
          rw [hn]
          try rfl
        rw [h] at hv
        obtain rfl := Option.some.inj hv
        exact ⟨fun x hx => hx, fun hb => absurd (hnotbar _ hn trivial hb) id⟩
      | otherOp =>
        have hv : visitExprStep arena st k =
            some { st with
                   expr_hashmap := insertNat st.expr_hashmap k,
                   adjacency := st.adjacency ++ ops.map (fun o => (o, k)) } := by
          unfold visitExprStep
          rw [hn]
          try rfl
        rw [h] at hv
        obtain rfl := Option.some.inj hv
        exact ⟨fun x hx => hx, fun hb => absurd (hnotbar _ hn trivial hb) id⟩
    | intImm v dt =>
      have hv : visitExprStep arena st k = some st := by
        unfold visitExprStep
        rw [hn]
      rw [h] at hv
      obtain rfl := Option.some.inj hv
      exact ⟨fun x hx => hx, fun hb => absurd (hnotbar _ hn trivial hb) id⟩
    | fifo n =>
      have hv : visitExprStep arena st k = some st := by
        unfold visitExprStep
        rw [hn]
      rw [h] at hv
      obtain rfl := Option.some.inj hv
      exact ⟨fun x hx => hx, fun hb => absurd (hnotbar _ hn trivial hb) id⟩
    | otherNode =>
      have hv : visitExprStep arena st k = some st := by
        unfold visitExprStep
        rw [hn]
      rw [h] at hv
      obtain rfl := Option.some.inj hv
      exact ⟨fun x hx => hx, fun hb => absurd (hnotbar _ hn trivial hb) id⟩

/-- Every barrier expression of the visited body ends up in the graph
state's `barrier_expr` capture. -/
theorem graphFold_barriers {arena : List (Nat × Node)} :
    ∀ {body : List Nat} {st0 st' : GraphState},
      body.foldlM (fun st k => visitExprStep arena st k) st0 = some st' →
      (∀ x ∈ st0.barrier_expr, x ∈ st'.barrier_expr) ∧
      (∀ k ∈ body, isBarrierKey arena k = true → k ∈ st'.barrier_expr) := by
  intro body
  induction body with
  | nil =>
    intro st0 st' h
    rw [List.foldlM_nil] at h
    obtain rfl := Option.some.inj h
    exact ⟨fun x hx => hx, fun k hk => absurd hk (by simp)⟩
  | cons k ks ih =>
    intro st0 st' h
    rw [List.foldlM_cons] at h
    obtain ⟨st1, hstep, hrest⟩ := option_bind_some h
    have hstep' := visitExprStep_barrier hstep
    have hr := ih hrest
    refine ⟨fun x hx => hr.1 x (hstep'.1 x hx), ?_⟩
    intro k' hk' hb
    rcases List.mem_cons.mp hk' with rfl | hk'
    · exact hr.1 k' (hstep'.2 hb)
    · exact hr.2 k' hk' hb

/-- Every event the cloning loop appends is a clone event. -/
theorem cloneFold_events {arena : List (Nat × Node)} {order : Nat} :
    ∀ {keys : List Nat} {acc0 acc1 : CloneAcc},
      cloneFold arena order keys acc0 = Except.ok acc1 →
      ∀ e ∈ acc1.events, e ∈ acc0.events ∨ ∃ o q, e = Event.cloneE o q := by
  intro keys
  induction keys with
  | nil =>
    intro acc0 acc1 h
    unfold cloneFold at h
    rw [List.foldlM_nil] at h
    have : acc0 = acc1 := by simpa [pure, Except.pure] using h
    subst this
    exact fun e he => Or.inl he
  | cons k ks ih =>
    intro acc0 acc1 h
    unfold cloneFold at h
    rw [List.foldlM_cons] at h
    obtain ⟨acc', hstep, hrest⟩ := except_bind_ok h
    obtain ⟨outc, hstepc, hcont⟩ := except_bind_ok hstep
    intro e he
    cases outc with
    | created hh e0 =>
      have hacc' : acc' = { acc0 with
          remap := insertA acc0.remap k hh,
          emits := acc0.emits ++ [e0],
          toRemove := acc0.toRemove ++ [k],
          events := acc0.events ++ [Event.cloneE order k] } :=
        (except_ok_inj hcont).symm
      subst hacc'
      rcases ih hrest e he with hmem | hs
      · rcases List.mem_append.mp hmem with hold | hnew
        · exact Or.inl hold
        · have : e = Event.cloneE order k := by simpa using hnew
          exact Or.inr ⟨order, k, this⟩
      · exact Or.inr hs
    | skippedSilent =>
      have hacc' : acc' = acc0 := (except_ok_inj hcont).symm
      subst hacc'
      exact ih hrest e he
    | skippedLogged m =>
      have hacc' : acc' = { acc0 with diags := acc0.diags ++ [m] } :=
        (except_ok_inj hcont).symm
      subst hacc'
      exact ih hrest e he
    | notExprNode =>
      have hacc' : acc' = acc0 := (except_ok_inj hcont).symm
      subst hacc'
      exact ih hrest e he

/-- Per-stage facts for C3: no stage emits a barrier-erasure event, and every
instruction of a created stage module is drawn from the supported set. -/
theorem cutStage_out {arena : List (Nat × Node)}
    {callers : List (Nat × List Nat)} {c : Container} {order smKey : Nat}
    {nwfa : List (Nat × Handle)} {ncs : List (Nat × String)} {so : StageOut}
    (h : cutStage arena callers c order smKey nwfa ncs = Except.ok so) :
    (∀ e ∈ so.events, isEraseBarrierEv e = false) ∧
    (∀ nm, so.module = some nm → ∀ e ∈ nm.body, emitSupported e = true) := by
  by_cases horder : 0 < order
  · obtain ⟨sm, pts, intoM, args, pre, ca, nwfa2, tout, _, _, _, _, _, hca, _,
      _, hso⟩ := cutStage_pos_inv horder h
    subst hso
    constructor
    · intro e he
      rcases cloneFold_events hca e he with hin | ⟨o, q, rfl⟩
      · exact absurd hin (by simp)
      · rfl
    · intro nm hnm e he
      obtain rfl := Option.some.inj hnm
      simp only [List.append_assoc, List.mem_append] at he
      rcases he with hv | hw | hp | hclone
      · rcases (validChain_spec order sm.buffered_ports).2 e hv with
          ⟨p, rfl⟩ | ⟨a, b, rfl⟩ <;> rfl
      · cases hvc : (validChain order sm.buffered_ports).2 with
        | none => rw [hvc] at hw; exact absurd hw (by simp)
        | some hcond =>
          rw [hvc] at hw
          have : e = Emit.waitUntil hcond := by simpa using hw
          subst this
          rfl
      · obtain ⟨pd, _, rfl⟩ := List.mem_map.mp hp
        rfl
      · rcases cloneFold_emits_shape hca e hclone with hin | hs
        · exact absurd hin (by simp)
        · rcases hs with ⟨x, y, rfl⟩ | ⟨x, y, rfl⟩ | ⟨x, y, rfl⟩ |
            ⟨x, dt, rfl⟩ | ⟨x, lo, hi, rfl⟩ <;> rfl
  · have h0 : order = 0 := Nat.eq_zero_of_not_pos horder
    subst h0
    obtain ⟨sm, nwfa2, _, _, hso⟩ := cutStage_zero_inv h
    subst hso
    exact ⟨fun e he => absurd he (by simp),
      fun nm hnm => absurd hnm (by simp)⟩

/-- Accumulated facts of the stage fold for C3: the trace only grows by
non-barrier-erasure events, the erased set only grows, and every module added
during the fold has a fully supported body. -/
theorem cutStages_out {arena : List (Nat × Node)}
    {callers : List (Nat × List Nat)} {c : Container} :
    ∀ {pairs : List (Nat × Nat)} {nwfa : List (Nat × Handle)}
      {ncs : List (Nat × String)} {out out' : CutOut},
      cutStages arena callers c pairs nwfa ncs out = Except.ok out' →
      (∃ rest, out'.trace = out.trace ++ rest ∧
        ∀ e ∈ rest, isEraseBarrierEv e = false) ∧
      (∃ more, out'.erased = out.erased ++ more) ∧
      (∀ nm ∈ out'.newModules, nm ∈ out.newModules ∨
        ∀ e ∈ nm.body, emitSupported e = true) := by
  intro pairs
  induction pairs with
  | nil =>
    intro nwfa ncs out out' h
    obtain rfl := except_ok_inj h
    exact ⟨⟨[], by simp, fun e he => absurd he (by simp)⟩,
      ⟨[], by simp⟩, fun nm hnm => Or.inl hnm⟩
  | cons pr rest ih =>
    intro nwfa ncs out out' h
    obtain ⟨order, smKey⟩ := pr
    unfold cutStages at h
    obtain ⟨so, hso, h⟩ := except_bind_ok h
    have hstage := cutStage_out hso
    obtain ⟨⟨tr, htr, htrno⟩, ⟨more, hmore⟩, hmods⟩ := ih h
    refine ⟨⟨so.events ++ tr, ?_, ?_⟩, ⟨so.erased ++ more, ?_⟩, ?_⟩
    · rw [htr]
      simp [List.append_assoc]
    · intro e he
      rcases List.mem_append.mp he with h1 | h1
      · exact hstage.1 e h1
      · exact htrno e h1
    · rw [hmore]
      simp [List.append_assoc]
    · intro nm hnm
      rcases hmods nm hnm with hin | hsup
      · rcases List.mem_append.mp hin with h1 | h1
        · exact Or.inl h1
        · right
          cases hm : so.module with
          | none => rw [hm] at h1; exact absurd h1 (by simp)
          | some nm0 =>
            rw [hm] at h1
            have : nm = nm0 := by simpa using h1
            subst this
            exact hstage.2 nm hm
      · exact Or.inr hsup

/-- C3: for every transformed module, every captured barrier expression is
erased before any stage body expression is cloned (every barrier-erasure
event precedes every clone event in the rewrite trace); every body expression
with opcode `BlockIntrinsic{Barrier}` ends up erased from the original
module; and every instruction of every new stage module is from the
handshake/supported-clone set, which contains no block intrinsic — hence no
barrier remains in the original module or any stage module. -/
theorem c3_theorem {sys : Sys} {m : ModuleDef} {fuel : Nat} {c : Container}
    {callers : List (Nat × List Nat)} {out : CutOut}
    (hc : analyzeModule sys m fuel = some c)
    (hcut : cutContainer sys.arena callers c = Except.ok out) :
    (∀ i j k o q, out.trace.get? i = some (Event.eraseBarrierE k) →
      out.trace.get? j = some (Event.cloneE o q) → i < j) ∧
    (∀ k ∈ m.body, isBarrierKey sys.arena k = true → k ∈ out.erased) ∧
    (∀ nm ∈ out.newModules, ∀ e ∈ nm.body, emitSupported e = true) := by
  unfold analyzeModule at hc
  obtain ⟨g, hg, hc⟩ := option_bind_some hc
  obtain ⟨bmap, hbm, hc⟩ := option_bind_some hc
  obtain ⟨sub, hsub, hc⟩ := option_bind_some hc
  have hceq : c = ⟨m.name, sub.1, sub.2, g.caller_expr, g.barrier_expr⟩ := by
    simpa using hc.symm
  unfold cutContainer at hcut
  obtain ⟨⟨tr, htr, htrno⟩, ⟨more, hmore⟩, hmods⟩ := cutStages_out hcut
  have htr' : out.trace = c.barrier_expr.map Event.eraseBarrierE ++ tr := htr
  have hmore' : out.erased = c.barrier_expr ++ more := hmore
  refine ⟨?_, ?_, ?_⟩
  · intro i j k o q hi hj
    have hilt : i < (c.barrier_expr.map Event.eraseBarrierE).length := by
      by_contra hge
      push_neg at hge
      rw [htr', List.get?_append_right hge] at hi
      have hmem := List.get?_mem hi
      have := htrno _ hmem
      simp [isEraseBarrierEv] at this
    have hjge : (c.barrier_expr.map Event.eraseBarrierE).length ≤ j := by
      by_contra hlt
      push_neg at hlt
      rw [htr', List.get?_append hlt] at hj
      have hmem := List.get?_mem hj
      obtain ⟨x, _, hx⟩ := List.mem_map.mp hmem
      exact Event.noConfusion hx
    exact Nat.lt_of_lt_of_le hilt hjge
  · intro k hk hb
    unfold runGraphVisitor at hg
    have hcap := (graphFold_barriers hg).2 k hk hb
    rw [hmore']
    apply List.mem_append_left
    rw [hceq]
    exact hcap
  · intro nm hnm e he
    rcases hmods nm hnm with hin | hsup
    · exact absurd hin (by simp)
    · exact hsup e he

theorem mem_processOps {path : List Nat} :
    ∀ {ops acc : List Nat} {x : Nat},
      x ∈ processOps path acc ops ↔ x ∈ acc ∨ (x ∈ ops ∧ ¬ x ∈ path) := by
  intro ops
  induction ops with
  | nil =>
    intro acc x
    simp [processOps]
  | cons z zs ih =>
    intro acc x
    unfold processOps at *
    rw [List.foldl_cons]
    by_cases hz : z ∈ path
    · rw [if_pos hz, ih]
      constructor
      · rintro (h | ⟨h1, h2⟩)
        · exact Or.inl h
        · exact Or.inr ⟨List.mem_cons_of_mem _ h1, h2⟩
      · rintro (h | ⟨h1, h2⟩)
        · exact Or.inl h
        · rcases List.mem_cons.mp h1 with rfl | h1
          · exact absurd hz h2
          · exact Or.inr ⟨h1, h2⟩
    · rw [if_neg hz, ih]
      constructor
      · rintro (h | ⟨h1, h2⟩)
        · rcases mem_appendNew.mp h with h | rfl
          · exact Or.inl h
          · exact Or.inr ⟨List.mem_cons_self _ _, hz⟩
        · exact Or.inr ⟨List.mem_cons_of_mem _ h1, h2⟩
      · rintro (h | ⟨h1, h2⟩)
        · exact Or.inl (mem_appendNew.mpr (Or.inl h))
        · rcases List.mem_cons.mp h1 with rfl | h1
          · exact Or.inl (mem_appendNew.mpr (Or.inr rfl))
          · exact Or.inr ⟨h1, h2⟩

theorem mem_processKeys {arena : List (Nat × Node)} {g : GraphState}
    {path : List Nat} :
    ∀ {ks acc res : List Nat},
      processKeys arena g path acc ks = some res →
      ∀ x, (x ∈ res ↔ x ∈ acc ∨ ∃ k ∈ ks, ∃ l,
        consideredOpsM arena g k = some l ∧ x ∈ l ∧ ¬ x ∈ path) := by
  intro ks
  induction ks with
  | nil =>
    intro acc res h x
    unfold processKeys at h
    obtain rfl := Option.some.inj h
    simp
  | cons k kss ih =>
    intro acc res h x
    unfold processKeys at h
    obtain ⟨l, hl, hrest⟩ := option_bind_some h
    rw [ih hrest x, mem_processOps]
    constructor
    · rintro ((h1 | ⟨h1, h2⟩) | ⟨k', hk', l', hcons, hx, hnp⟩)
      · exact Or.inl h1
      · exact Or.inr ⟨k, List.mem_cons_self _ _, l, hl, h1, h2⟩
      · exact Or.inr ⟨k', List.mem_cons_of_mem _ hk', l', hcons, hx, hnp⟩
    · rintro (h1 | ⟨k', hk', l', hcons, hx, hnp⟩)
      · exact Or.inl (Or.inl h1)
      · rcases List.mem_cons.mp hk' with rfl | hk'
        · rw [hl] at hcons
          obtain rfl := Option.some.inj hcons
          exact Or.inl (Or.inr ⟨hx, hnp⟩)
        · exact Or.inr ⟨k', hk', l', hcons, hx, hnp⟩

theorem mem_processPath {arena : List (Nat × Node)} {g : GraphState}
    {path acc res : List Nat}
    (h : processPath arena g acc path = some res) :
    ∀ x, (x ∈ res ↔ x ∈ acc ∨ ∃ k ∈ path.tail, ∃ l,
      consideredOpsM arena g k = some l ∧ x ∈ l ∧ ¬ x ∈ path) := by
  cases path with
  | nil =>
    unfold processPath at h
    obtain rfl := Option.some.inj h
    intro x
    simp
  | cons r rest =>
    unfold processPath at h
    exact mem_processKeys h

theorem mem_pathsFold {arena : List (Nat × Node)} {g : GraphState} :
    ∀ {paths : List (List Nat)} {acc res : List Nat},
      paths.foldlM (fun acc p => processPath arena g acc p) acc = some res →
      ∀ x, (x ∈ res ↔ x ∈ acc ∨ ∃ p ∈ paths, ∃ k ∈ p.tail, ∃ l,
        consideredOpsM arena g k = some l ∧ x ∈ l ∧ ¬ x ∈ p) := by
  intro paths
  induction paths with
  | nil =>
    intro acc res h x
    rw [List.foldlM_nil] at h
    obtain rfl := Option.some.inj h
    simp
  | cons p ps ih =>
    intro acc res h x
    rw [List.foldlM_cons] at h
    obtain ⟨acc1, hp, hrest⟩ := option_bind_some h
    rw [ih hrest x, mem_processPath hp x]
    constructor
    · rintro ((h1 | ⟨k, hk, l, hcons, hx, hnp⟩) | ⟨p', hp', hrest'⟩)
      · exact Or.inl h1
      · exact Or.inr ⟨p, List.mem_cons_self _ _, k, hk, l, hcons, hx, hnp⟩
      · exact Or.inr ⟨p', List.mem_cons_of_mem _ hp', hrest'⟩
    · rintro (h1 | ⟨p', hp', hrest'⟩)
      · exact Or.inl (Or.inl h1)
      · rcases List.mem_cons.mp hp' with rfl | hp'
        · exact Or.inl (Or.inr hrest')
        · exact Or.inr ⟨p', hp', hrest'⟩

/-- C8: for a barrier value `b` not yet present in any opened stage's port
set, barrier-level analysis opens a stage keyed `b`, and a key `x` belongs to
that stage's port list exactly when `x = b` (the initial singleton) or some
collected root-to-leaf path of the DFS from `b` visits (past its root) an
expression one of whose considered producer operands is `x` — all operands
for ordinary expressions, only operand 0 for a `Slice` — with `x` not lying
on that path.  (The `appendNew` dedup makes repeated candidates harmless,
matching "not already present".) -/
theorem c8_theorem {arena : List (Nat × Node)} {g : GraphState} {fuel : Nat}
    {map : List (Nat × List Nat)} {b : Nat} {paths : List (List Nat)}
    {ports : List Nat}
    (hnew : map.any (fun e => b ∈ e.2) = false)
    (hpaths : dfsPaths g.adjacency fuel b [] = some paths)
    (hfold : paths.foldlM (fun acc p => processPath arena g acc p) [b] =
      some ports) :
    processBarrier arena g fuel map b = some (map ++ [(b, ports)]) ∧
    ∀ x, (x ∈ ports ↔ x = b ∨ ∃ p ∈ paths, ∃ k ∈ p.tail, ∃ l,
      consideredOpsM arena g k = some l ∧ x ∈ l ∧ ¬ x ∈ p) := by
  constructor
  · simp [processBarrier, hnew, hpaths, hfold]
  · intro x
    rw [mem_pathsFold hfold x]
    simp

/-- Witness for C8: the statement instantiated on `exA`'s barrier value 3
(and the membership characterization instantiated at the candidate key 5). -/
theorem c8_witness :
    processBarrier exA_arena statePostExA7 32 ([] : List (Nat × List Nat)) 3 =
      some ([] ++ [(3, exA_stagePorts)]) ∧
    (5 ∈ exA_stagePorts ↔ 5 = 3 ∨ ∃ p ∈ exA_paths3, ∃ k ∈ p.tail, ∃ l,
      consideredOpsM exA_arena statePostExA7 k = some l ∧ 5 ∈ l ∧
      ¬ 5 ∈ p) :=
  ⟨(@c8_theorem exA_arena statePostExA7 32 [] 3 exA_paths3 exA_stagePorts
      (by rfl) (by rfl) (by rfl)).1,
   (@c8_theorem exA_arena statePostExA7 32 [] 3 exA_paths3 exA_stagePorts
      (by rfl) (by rfl) (by rfl)).2 5⟩

/-- C9 counterexample: on `exC9` the stage-1 body contains the unsupported
`Binary{Mod}` expression (key 6); the pass completes and the expression is
not cloned, but — contrary to the claim — no diagnostic is logged: the
unsupported `Binary` variants hit an empty match arm. -/
theorem c9_counterexample :
    runOk exC9_run = true ∧
    6 ∈ (stageSmOf (contOf exC9_run) 1).buffered_expr ∧
    lookupA exC9_arena 6 =
      some (Node.expr (Opcode.binary BinOp.mod) [3, 3] (DataType.int 32)) ∧
    (∀ e ∈ (firstNewModule (outOf exC9_run)).body, ∀ x y,
      e ≠ Emit.binaryE BinOp.mod x y) ∧
    ¬ (outOf exC9_run).diags ≠ [] := by
  refine ⟨by rfl, by decide, by rfl, ?_, ?_⟩
  · intro e he x y
    fin_cases he <;> simp
  intro hd
  exact hd (by rfl)

/-- C9 (amended): a stage-body expression whose opcode is a binary other than
`Add`/`Sub`/`Mul`, or a cast other than `BitCast`, is skipped *silently* — no
diagnostic is logged and the cloning loop continues; the "is not supported"
diagnostic is logged only for opcodes outside the `Binary`/`Cast`/`Slice`
match families.  On `exC9` the pass accordingly completes with an empty
diagnostic list and a stage body lacking the `Mod` expression. -/
theorem c9_theorem :
    (∀ (arena : List (Nat × Node)) (order : Nat)
       (remap : List (Nat × Handle)) (k : Nat) (b : BinOp) (ops : List Nat)
       (dt : DataType),
       lookupA arena k = some (Node.expr (Opcode.binary b) ops dt) →
       ¬ b ∈ [BinOp.add, BinOp.sub, BinOp.mul] →
       cloneStep arena order remap k = Except.ok CloneOutcome.skippedSilent) ∧
    (∀ (arena : List (Nat × Node)) (order : Nat)
       (remap : List (Nat × Handle)) (k : Nat) (cc : CastOp) (ops : List Nat)
       (dt : DataType),
       lookupA arena k = some (Node.expr (Opcode.cast cc) ops dt) →
       cc ≠ CastOp.bitCast →
       cloneStep arena order remap k = Except.ok CloneOutcome.skippedSilent) ∧
    (∀ (arena : List (Nat × Node)) (order : Nat)
       (remap : List (Nat × Handle)) (k : Nat) (op : Opcode) (ops : List Nat)
       (dt : DataType),
       lookupA arena k = some (Node.expr op ops dt) →
       (∀ b, op ≠ Opcode.binary b) → (∀ cc, op ≠ Opcode.cast cc) →
       op ≠ Opcode.slice →
       cloneStep arena order remap k =
         Except.ok (CloneOutcome.skippedLogged (unsupportedMsg op))) ∧
    (runOk exC9_run = true ∧ (outOf exC9_run).diags = [] ∧
     ∀ e ∈ (firstNewModule (outOf exC9_run)).body, ∀ x y,
       e ≠ Emit.binaryE BinOp.mod x y) := by
  refine ⟨?_, ?_, ?_, by rfl, by rfl, by
    intro e he x y
    fin_cases he <;> simp⟩
  · intro arena order remap k b ops dt hn hb
    unfold cloneStep
    rw [hn]
    cases b with
    | add => exact absurd (by simp) hb
    | sub => exact absurd (by simp) hb
    | mul => exact absurd (by simp) hb
    | bitAnd => rfl
    | bitOr => rfl
    | bitXor => rfl
    | shl => rfl
    | shr => rfl
    | mod => rfl
  · intro arena order remap k cc ops dt hn hc
    unfold cloneStep
    rw [hn]
    cases cc with
    | bitCast => exact absurd rfl hc
    | zext => rfl
    | sext => rfl
  · intro arena order remap k op ops dt hn hb hc hs
    unfold cloneStep
    rw [hn]
    cases op with
    | binary b => exact absurd rfl (hb b)
    | cast cc => exact absurd rfl (hc cc)
    | slice => exact absurd rfl hs
    | load => rfl
    | fifoPop => rfl
    | fifoPush => rfl
    | store => rfl
    | bind => rfl
    | asyncCall => rfl
    | barrier => rfl
    | intrinsicOther => rfl
    | otherOp => rfl

/-- Witness for C9: the silent skip at `exC9`'s `Mod` expression (key 6) and
the logged skip at a `FIFOPop` (key 2, outside the match families). -/
theorem c9_witness :
    cloneStep exC9_arena 1 [] 6 = Except.ok CloneOutcome.skippedSilent ∧
    cloneStep exA_arena 1 [] 2 =
      Except.ok (CloneOutcome.skippedLogged (unsupportedMsg Opcode.fifoPop)) :=
  ⟨c9_theorem.1 exC9_arena 1 [] 6 BinOp.mod [3, 3] (DataType.int 32)
     (by rfl) (by decide),
   c9_theorem.2.2.1 exA_arena 1 [] 2 Opcode.fifoPop [1] (DataType.int 32)
     (by rfl) (by intro b; simp) (by intro cc; simp) (by decide)⟩

/-- Witness for C3: the statement instantiated on the full pipeline run of
`exA`. -/
theorem c3_witness :
    (∀ i j k o q,
      (outOf exA_run).trace.get? i = some (Event.eraseBarrierE k) →
      (outOf exA_run).trace.get? j = some (Event.cloneE o q) → i < j) ∧
    (∀ k ∈ exA_mod.body, isBarrierKey exA_sys.arena k = true →
      k ∈ (outOf exA_run).erased) ∧
    (∀ nm ∈ (outOf exA_run).newModules, ∀ e ∈ nm.body,
      emitSupported e = true) :=
  @c3_theorem exA_sys exA_mod 32 (contOf exA_run) [] (outOf exA_run)
    (by rfl) (by rfl)

/-- Witness for C7: the statement instantiated at the `FIFOPush` (key 7) of
`exA`, visited in the graph state reached after the preceding body
expressions. -/
theorem c7_witness :
    ((Opcode.fifoPush = Opcode.fifoPush ∨ Opcode.fifoPush = Opcode.store) →
      (statePostExA7).adjacency = (statePreExA7).adjacency ∧
      ∃ d, ([6, 5] : List Nat).get? 1 = some d ∧
        (statePostExA7).module_outputs =
          (statePreExA7).module_outputs ++ [d]) ∧
    (Opcode.fifoPush = Opcode.slice →
      (∃ b, ([6, 5] : List Nat).get? 0 = some b ∧
        (statePostExA7).adjacency = (statePreExA7).adjacency ++ [(b, 7)]) ∧
      (statePostExA7).module_outputs = (statePreExA7).module_outputs) ∧
    ((Opcode.fifoPush = Opcode.load ∨ Opcode.fifoPush = Opcode.fifoPop) →
      (statePostExA7).module_ports = (statePreExA7).module_ports ++ [7] ∧
      (statePostExA7).adjacency = (statePreExA7).adjacency ++
        ([6, 5] : List Nat).map (fun o => (o, 7))) ∧
    (¬ Opcode.fifoPush ∈ [Opcode.fifoPush, Opcode.store, Opcode.slice,
        Opcode.barrier, Opcode.bind, Opcode.asyncCall] →
      (statePostExA7).adjacency = (statePreExA7).adjacency ++
        ([6, 5] : List Nat).map (fun o => (o, 7)) ∧
      (statePostExA7).module_outputs = (statePreExA7).module_outputs ∧
      7 ∈ (statePostExA7).expr_hashmap) :=
  @c7_theorem exA_arena statePreExA7 statePostExA7 7 Opcode.fifoPush [6, 5]
    (DataType.int 32) (by rfl) (by rfl)

end BarrierPass
